import Mathlib

/-!
# Expression nodes of the SQL builder

The Go sources build expression objects on the heap and give each object a
`parent` pointer to itself (`x.boolInterfaceImpl.parent = &x`).  The embedding
keeps that: a heap is the list of the objects allocated so far, a pointer is a
position in the list, and every constructor extends the heap by the objects it
allocates and returns the pointer to the new object.
-/

namespace Jet

/-- A Go pointer to an expression object: its position in the heap. -/
abbrev Ref := Nat

/-- Rendered SQL: the text and the ordered argument vector. -/
structure SQL where
  text : String
  args : List String
  deriving DecidableEq, Repr

/-- The expression part embedded in an object.  `foreign` stands for the
expression types declared outside the translated files (columns, literals,
parameters); `wrapped` is the embedded `Expression` interface field of
`boolExpressionWrapper` and `rangeExpressionWrapper`. -/
inductive Payload where
  | foreign (out : SQL)
  | binaryOpExpression (lhs rhs : Ref) (operator : String)
  | prefixOpExpression (expression : Ref) (operator : String)
  | postfixOpExpression (expression : Ref) (operator : String)
  | wrapped (expression : Ref)
  deriving DecidableEq, Repr

/-- One heap object: the embedded expression part and the `parent` field of
each embedded `...InterfaceImpl` the object's struct type has (`none` when the
struct does not embed that implementation). -/
structure Object where
  payload : Payload
  expressionParent : Option Ref
  boolParent : Option Ref
  rangeParent : Option Ref
  deriving DecidableEq, Repr

/-- The heap: objects in allocation order. -/
abbrev Heap := List Object

/-- Allocation of one object; the pointer returned is the old heap size. -/
def alloc (h : Heap) (o : Object) : Heap × Ref :=
  (h ++ [o], h.length)

/-- Field read `b.parent` for `b *boolInterfaceImpl` embedded in the object at `r`. -/
def boolParentOf (h : Heap) (r : Ref) : Option Ref :=
  h[r]?.bind Object.boolParent

/-- Field read `r.parent` for `r *rangeInterfaceImpl[T]` embedded in the object at `r`. -/
def rangeParentOf (h : Heap) (r : Ref) : Option Ref :=
  h[r]?.bind Object.rangeParent

/-- The pointers an expression part holds to its operands. -/
def Payload.children : Payload → List Ref
  | .foreign _ => []
  | .binaryOpExpression lhs rhs _ => [lhs, rhs]
  | .prefixOpExpression e _ => [e]
  | .postfixOpExpression e _ => [e]
  | .wrapped e => [e]

/-- Operands are allocated before the node that holds them. -/
def Heap.WF (h : Heap) : Prop :=
  ∀ r : Fin h.length, ∀ c ∈ (h.get r).payload.children, c < r.val

instance (h : Heap) : Decidable h.WF := by
  unfold Heap.WF; infer_instance

/-- Modelled from the spec: the serializers of the operator nodes are declared
outside the translated files.  How a dialect writes an operator around the SQL
of its operands (spacing, parenthesization by precedence, order of the
arguments) is taken as given. -/
structure Renderer where
  binary : String → SQL → SQL → SQL
  prefixOp : String → SQL → SQL
  postfixOp : String → SQL → SQL

/-- Modelled from the spec: a renderer that writes a binary node as
`(lhs op rhs)`, as in the scenario `a.UNION(b)` gives `(a + b)`, and appends
the arguments in textual order. -/
def parenRenderer : Renderer where
  binary op a b := ⟨"(" ++ a.text ++ " " ++ op ++ " " ++ b.text ++ ")", a.args ++ b.args⟩
  prefixOp op a := ⟨"(" ++ op ++ " " ++ a.text ++ ")", a.args⟩
  postfixOp op a := ⟨"(" ++ a.text ++ " " ++ op ++ ")", a.args⟩

/-- Serialization of the object at `r`.  A wrapper struct embeds the
`Expression` interface, so its serializer is the promoted method of the
wrapped expression.  `fuel` bounds the depth of the walk; `none` is a dangling
pointer or exhausted fuel. -/
def serialize (d : Renderer) (h : Heap) : Nat → Ref → Option SQL
  | 0, _ => none
  | fuel + 1, r =>
    match h[r]? with
    | none => none
    | some o =>
      match o.payload with
      | .foreign out => some out
      | .binaryOpExpression lhs rhs operator =>
        match serialize d h fuel lhs, serialize d h fuel rhs with
        | some a, some b => some (d.binary operator a b)
        | _, _ => none
      | .prefixOpExpression e operator => (serialize d h fuel e).map (d.prefixOp operator)
      | .postfixOpExpression e operator => (serialize d h fuel e).map (d.postfixOp operator)
      | .wrapped e => serialize d h fuel e

/-- Serialization with fuel for the whole heap, which a well-formed heap never exhausts. -/
def render (d : Renderer) (h : Heap) (r : Ref) : Option SQL :=
  serialize d h h.length r

/-- Modelled from the spec: the operator texts used by the comparison helpers
declared outside the translated files (`EQ`, `NOT_EQ`, `Eq`, `Lt`, `Contains`,
...) are taken as a table. -/
structure Operators where
  eq : String
  notEq : String
  isDistinctFrom : String
  isNotDistinctFrom : String
  lt : String
  ltEq : String
  gt : String
  gtEq : String
  contains : String
  overlap : String

/-! ## `sqlbuilder/bool_expresion.go` -/

namespace sqlbuilder

/-- Modelled from the spec: `newBinaryExpression` is declared outside the
translated files; a binary node keeps its two operands and its operator. -/
def newBinaryExpression (lhs rhs : Ref) (operator : String) : Payload :=
  .binaryOpExpression lhs rhs operator

/-- Modelled from the spec: `newPrefixExpression` is declared outside the
translated files; a unary node keeps its operand and its operator. -/
def newPrefixExpression (expression : Ref) (operator : String) : Payload :=
  .prefixOpExpression expression operator

/-- Modelled from the spec: `newPostfixOpExpression` is declared outside the
translated files; a unary node keeps its operand and its operator. -/
def newPostfixOpExpression (expression : Ref) (operator : String) : Payload :=
  .postfixOpExpression expression operator

def newBinaryBoolExpression (h : Heap) (lhs rhs : Ref) (operator : String) : Heap × Ref :=
  let boolExpression := h.length
  alloc h
    { payload := newBinaryExpression lhs rhs operator
      expressionParent := some boolExpression
      boolParent := some boolExpression
      rangeParent := none }

def newPrefixBoolExpression (h : Heap) (expression : Ref) (operator : String) : Heap × Ref :=
  let exp := h.length
  alloc h
    { payload := newPrefixExpression expression operator
      expressionParent := some exp
      boolParent := some exp
      rangeParent := none }

def newPostifxBoolExpression (h : Heap) (expression : Ref) (operator : String) : Heap × Ref :=
  let exp := h.length
  alloc h
    { payload := newPostfixOpExpression expression operator
      expressionParent := some exp
      boolParent := some exp
      rangeParent := none }

def newBoolExpressionWrap (h : Heap) (expression : Ref) : Heap × Ref :=
  let boolExpressionWrap := h.length
  alloc h
    { payload := .wrapped expression
      expressionParent := none
      boolParent := some boolExpressionWrap
      rangeParent := none }

def BoolExp (h : Heap) (expression : Ref) : Heap × Ref :=
  newBoolExpressionWrap h expression

/-- Modelled from the spec: the free function `EQ` is declared outside the
translated files; it builds a binary boolean node over its two arguments. -/
def EQ (ops : Operators) (h : Heap) (lhs rhs : Ref) : Heap × Ref :=
  newBinaryBoolExpression h lhs rhs ops.eq

/-- Modelled from the spec: the free function `NOT_EQ`, as `EQ`. -/
def NOT_EQ (ops : Operators) (h : Heap) (lhs rhs : Ref) : Heap × Ref :=
  newBinaryBoolExpression h lhs rhs ops.notEq

/-- Modelled from the spec: the free function `IS_DISTINCT_FROM`, as `EQ`. -/
def IS_DISTINCT_FROM (ops : Operators) (h : Heap) (lhs rhs : Ref) : Heap × Ref :=
  newBinaryBoolExpression h lhs rhs ops.isDistinctFrom

/-- Modelled from the spec: the free function `IS_NOT_DISTINCT_FROM`, as `EQ`. -/
def IS_NOT_DISTINCT_FROM (ops : Operators) (h : Heap) (lhs rhs : Ref) : Heap × Ref :=
  newBinaryBoolExpression h lhs rhs ops.isNotDistinctFrom

/-! The methods of `*boolInterfaceImpl`.  The receiver `b` is the object that
embeds the implementation; `none` is a receiver without a `boolInterfaceImpl`. -/

def boolInterfaceImpl.EQ (ops : Operators) (h : Heap) (b expression : Ref) : Option (Heap × Ref) :=
  (boolParentOf h b).map fun parent => sqlbuilder.EQ ops h parent expression

def boolInterfaceImpl.NOT_EQ (ops : Operators) (h : Heap) (b expression : Ref) :
    Option (Heap × Ref) :=
  (boolParentOf h b).map fun parent => sqlbuilder.NOT_EQ ops h parent expression

def boolInterfaceImpl.IS_DISTINCT_FROM (ops : Operators) (h : Heap) (b rhs : Ref) :
    Option (Heap × Ref) :=
  (boolParentOf h b).map fun parent => sqlbuilder.IS_DISTINCT_FROM ops h parent rhs

def boolInterfaceImpl.IS_NOT_DISTINCT_FROM (ops : Operators) (h : Heap) (b rhs : Ref) :
    Option (Heap × Ref) :=
  (boolParentOf h b).map fun parent => sqlbuilder.IS_NOT_DISTINCT_FROM ops h parent rhs

def boolInterfaceImpl.AND (h : Heap) (b expression : Ref) : Option (Heap × Ref) :=
  (boolParentOf h b).map fun parent => newBinaryBoolExpression h parent expression "AND"

def boolInterfaceImpl.OR (h : Heap) (b expression : Ref) : Option (Heap × Ref) :=
  (boolParentOf h b).map fun parent => newBinaryBoolExpression h parent expression "OR"

def boolInterfaceImpl.IS_TRUE (h : Heap) (b : Ref) : Option (Heap × Ref) :=
  (boolParentOf h b).map fun parent => newPostifxBoolExpression h parent "IS TRUE"

def boolInterfaceImpl.IS_NOT_TRUE (h : Heap) (b : Ref) : Option (Heap × Ref) :=
  (boolParentOf h b).map fun parent => newPostifxBoolExpression h parent "IS NOT TRUE"

def boolInterfaceImpl.IS_FALSE (h : Heap) (b : Ref) : Option (Heap × Ref) :=
  (boolParentOf h b).map fun parent => newPostifxBoolExpression h parent "IS FALSE"

def boolInterfaceImpl.IS_NOT_FALSE (h : Heap) (b : Ref) : Option (Heap × Ref) :=
  (boolParentOf h b).map fun parent => newPostifxBoolExpression h parent "IS NOT FALSE"

def boolInterfaceImpl.IS_UNKNOWN (h : Heap) (b : Ref) : Option (Heap × Ref) :=
  (boolParentOf h b).map fun parent => newPostifxBoolExpression h parent "IS UNKNOWN"

def boolInterfaceImpl.IS_NOT_UNKNOWN (h : Heap) (b : Ref) : Option (Heap × Ref) :=
  (boolParentOf h b).map fun parent => newPostifxBoolExpression h parent "IS NOT UNKNOWN"

end sqlbuilder

/-! ## `internal/jet/range_expression.go` -/

namespace jet

/-- Modelled from the spec: the boolean-valued operator helpers (`Eq`, `Lt`,
`Contains`, ...) are declared outside the translated files; each builds a new
binary boolean node over its two arguments, its parent pointers set to itself. -/
def binaryBoolOperator (h : Heap) (lhs rhs : Ref) (operator : String) : Heap × Ref :=
  alloc h
    { payload := .binaryOpExpression lhs rhs operator
      expressionParent := some h.length
      boolParent := some h.length
      rangeParent := none }

/-- Modelled from the spec: the arithmetic helpers (`Add`, `Sub`, `Mul`) are
declared outside the translated files; each builds a new binary node over its
two arguments. -/
def binaryOperator (h : Heap) (lhs rhs : Ref) (operator : String) : Heap × Ref :=
  alloc h
    { payload := .binaryOpExpression lhs rhs operator
      expressionParent := some h.length
      boolParent := none
      rangeParent := none }

/-- Modelled from the spec: `Eq(lhs, rhs)`. -/
def Eq (ops : Operators) (h : Heap) (lhs rhs : Ref) : Heap × Ref :=
  binaryBoolOperator h lhs rhs ops.eq

/-- Modelled from the spec: `NotEq(lhs, rhs)`. -/
def NotEq (ops : Operators) (h : Heap) (lhs rhs : Ref) : Heap × Ref :=
  binaryBoolOperator h lhs rhs ops.notEq

/-- Modelled from the spec: `Lt(lhs, rhs)`. -/
def Lt (ops : Operators) (h : Heap) (lhs rhs : Ref) : Heap × Ref :=
  binaryBoolOperator h lhs rhs ops.lt

/-- Modelled from the spec: `LtEq(lhs, rhs)`. -/
def LtEq (ops : Operators) (h : Heap) (lhs rhs : Ref) : Heap × Ref :=
  binaryBoolOperator h lhs rhs ops.ltEq

/-- Modelled from the spec: `Gt(lhs, rhs)`. -/
def Gt (ops : Operators) (h : Heap) (lhs rhs : Ref) : Heap × Ref :=
  binaryBoolOperator h lhs rhs ops.gt

/-- Modelled from the spec: `GtEq(lhs, rhs)`. -/
def GtEq (ops : Operators) (h : Heap) (lhs rhs : Ref) : Heap × Ref :=
  binaryBoolOperator h lhs rhs ops.gtEq

/-- Modelled from the spec: `Contains(lhs, rhs)`. -/
def Contains (ops : Operators) (h : Heap) (lhs rhs : Ref) : Heap × Ref :=
  binaryBoolOperator h lhs rhs ops.contains

/-- Modelled from the spec: `Overlap(lhs, rhs)`. -/
def Overlap (ops : Operators) (h : Heap) (lhs rhs : Ref) : Heap × Ref :=
  binaryBoolOperator h lhs rhs ops.overlap

/-- Modelled from the spec: `Add(lhs, rhs)`, the arithmetic `+` node. -/
def Add (h : Heap) (lhs rhs : Ref) : Heap × Ref :=
  binaryOperator h lhs rhs "+"

/-- Modelled from the spec: `Mul(lhs, rhs)`, the arithmetic `*` node. -/
def Mul (h : Heap) (lhs rhs : Ref) : Heap × Ref :=
  binaryOperator h lhs rhs "*"

/-- Modelled from the spec: `Sub(lhs, rhs)`, the arithmetic `-` node. -/
def Sub (h : Heap) (lhs rhs : Ref) : Heap × Ref :=
  binaryOperator h lhs rhs "-"

def newRangeExpressionWrap (h : Heap) (expression : Ref) : Heap × Ref :=
  let rangeExpressionWrap := h.length
  alloc h
    { payload := .wrapped expression
      expressionParent := none
      boolParent := none
      rangeParent := some rangeExpressionWrap }

def RangeExp (h : Heap) (expression : Ref) : Heap × Ref :=
  newRangeExpressionWrap h expression

/-! The methods of `*rangeInterfaceImpl[T]`.  The receiver `r` is the object
that embeds the implementation; `none` is a receiver without one. -/

def rangeInterfaceImpl.EQ (ops : Operators) (h : Heap) (r rhs : Ref) : Option (Heap × Ref) :=
  (rangeParentOf h r).map fun parent => jet.Eq ops h parent rhs

def rangeInterfaceImpl.NOT_EQ (ops : Operators) (h : Heap) (r rhs : Ref) : Option (Heap × Ref) :=
  (rangeParentOf h r).map fun parent => jet.NotEq ops h parent rhs

def rangeInterfaceImpl.LT (ops : Operators) (h : Heap) (r rhs : Ref) : Option (Heap × Ref) :=
  (rangeParentOf h r).map fun parent => jet.Lt ops h parent rhs

def rangeInterfaceImpl.LT_EQ (ops : Operators) (h : Heap) (r rhs : Ref) : Option (Heap × Ref) :=
  (rangeParentOf h r).map fun parent => jet.LtEq ops h parent rhs

def rangeInterfaceImpl.GT (ops : Operators) (h : Heap) (r rhs : Ref) : Option (Heap × Ref) :=
  (rangeParentOf h r).map fun parent => jet.Gt ops h parent rhs

def rangeInterfaceImpl.GT_EQ (ops : Operators) (h : Heap) (r rhs : Ref) : Option (Heap × Ref) :=
  (rangeParentOf h r).map fun parent => jet.GtEq ops h parent rhs

def rangeInterfaceImpl.CONTAINS (ops : Operators) (h : Heap) (r rhs : Ref) :
    Option (Heap × Ref) :=
  (rangeParentOf h r).map fun parent => jet.Contains ops h parent rhs

def rangeInterfaceImpl.CONTAINS_RANGE (ops : Operators) (h : Heap) (r rhs : Ref) :
    Option (Heap × Ref) :=
  (rangeParentOf h r).map fun parent => jet.Contains ops h parent rhs

def rangeInterfaceImpl.OVERLAP (ops : Operators) (h : Heap) (r rhs : Ref) :
    Option (Heap × Ref) :=
  (rangeParentOf h r).map fun parent => jet.Overlap ops h parent rhs

def rangeInterfaceImpl.UNION (h : Heap) (r rhs : Ref) : Option (Heap × Ref) :=
  (rangeParentOf h r).map fun parent =>
    let sum := jet.Add h parent rhs
    RangeExp sum.1 sum.2

def rangeInterfaceImpl.INTERSECTION (h : Heap) (r rhs : Ref) : Option (Heap × Ref) :=
  (rangeParentOf h r).map fun parent =>
    let product := jet.Mul h parent rhs
    RangeExp product.1 product.2

def rangeInterfaceImpl.DIFFERENCE (h : Heap) (r rhs : Ref) : Option (Heap × Ref) :=
  (rangeParentOf h r).map fun parent =>
    let difference := jet.Sub h parent rhs
    RangeExp difference.1 difference.2

end jet

/-- The outcome of a building call on heap `h`: it returned a pointer to an
object the call allocated, and every object of `h` is as it was. -/
def Builds (h : Heap) (res : Option (Heap × Ref)) : Prop :=
  ∃ h' r, res = some (h', r) ∧ h.length ≤ r ∧ r < h'.length ∧
    ∀ i : Nat, i < h.length → h'[i]? = h[i]?

/-! ## `generator/internal/template/templates.go`: the generated table handle -/

namespace template

/-- Modelled from the spec: a column handle, built by the dialect's
`<Type>Column(name)` constructors, which are declared outside the translated
files. -/
structure Column where
  columnType : String
  name : String
  deriving DecidableEq, Repr

/-- Modelled from the spec: the dialect's table value, declared outside the
translated files: (schema, name, alias?) and the ordered column list. -/
structure Table where
  schemaName : String
  name : String
  tableAlias : Option String
  columns : List Column
  deriving DecidableEq, Repr

/-- Modelled from the spec: `NewTable(schema, name, columns...)` builds a table
without alias. -/
def NewTable (schemaName name : String) (columns : List Column) : Table :=
  { schemaName := schemaName, name := name, tableAlias := none, columns := columns }

/-- Modelled from the spec: the dialect's `Table.AS(alias)`, whose result the
template does not use: it sets the alias of the table it is called on. -/
def Table.AS (t : Table) (aliasName : String) : Table :=
  { t with tableAlias := some aliasName }

/-- The column metadata the template reads (`.Name`, `.SqlBuilderColumnType`). -/
structure ColumnInfo where
  Name : String
  SqlBuilderColumnType : String
  deriving DecidableEq, Repr

/-- The table metadata the template reads. -/
structure TableInfo where
  SchemaName : String
  Name : String
  GoStructName : String
  Columns : List ColumnInfo
  MutableColumns : List ColumnInfo
  deriving DecidableEq, Repr

/-- The generated struct `{{.GoStructName}}`: the embedded table, the column
fields in declaration order and the two column lists. -/
structure GoStruct where
  Table : Table
  Columns : List Column
  AllColumns : List Column
  MutableColumns : List Column
  deriving DecidableEq, Repr

/-- The handles allocated so far; a `*{{.GoStructName}}` is a position in it. -/
abbrev Handles := List GoStruct

/-- The template `column-list` over the `var (...)` block of
`new{{.GoStructName}}`: one column object per metadata entry, in order. -/
def columnList (cs : List ColumnInfo) : List Column :=
  cs.map fun c => { columnType := c.SqlBuilderColumnType, name := c.Name }

/-- The generated `new{{.GoStructName}}()`. -/
def newGoStruct (m : TableInfo) (h : Handles) : Handles × Nat :=
  (h ++ [{ Table := NewTable m.SchemaName m.Name (columnList m.Columns)
           Columns := columnList m.Columns
           AllColumns := columnList m.Columns
           MutableColumns := columnList m.MutableColumns }],
   h.length)

/-- The statement `aliasTable.Table.AS(alias)`: an update in place of the
handle at `p`. -/
def setAlias (h : Handles) (p : Nat) (aliasName : String) : Handles :=
  match h[p]? with
  | some s => h.set p { s with Table := s.Table.AS aliasName }
  | none => h

/-- The generated method `AS`; the receiver `a` is not read. -/
def AS (m : TableInfo) (h : Handles) (_a : Nat) (aliasName : String) : Handles × Nat :=
  let aliasTable := newGoStruct m h
  (setAlias aliasTable.1 aliasTable.2 aliasName, aliasTable.2)

/-- A handle of the generated type for `m`, whatever its alias: it carries the
schema, the name and the columns the generated constructor gives it. -/
def GeneratedFor (m : TableInfo) (t : GoStruct) : Prop :=
  t.Table.schemaName = m.SchemaName ∧ t.Table.name = m.Name ∧
  t.Table.columns = columnList m.Columns ∧ t.Columns = columnList m.Columns ∧
  t.AllColumns = columnList m.Columns ∧ t.MutableColumns = columnList m.MutableColumns

end template

/-! ## `generator/internal/template/templates.go`: the generated enum model type -/

namespace enumModel

/-- The enum metadata the template reads. -/
structure EnumInfo where
  Name : String
  Values : List String
  deriving DecidableEq, Repr

/-- A Go `interface{}` value as the database driver hands it to `Scan`. -/
inductive Value where
  | nil
  | int64 (v : Int)
  | float64 (bits : Nat)
  | bool (v : Bool)
  | bytes (v : List Nat)
  | string (v : String)
  | time (unixNano : Int)
  deriving DecidableEq, Repr

/-- The generated constant `{{Name}}_{{element}} {{Name}} = "{{element}}"`:
the enum type is a string and the constant's value is the element text.  The
template writes the element between double quotes as it is; the values are
taken to be the texts those Go literals denote. -/
def enumConst (element : String) : String := element

/-- The generated `switch string(v)`: the first `case "{{element}}"` equal to
`v` assigns its constant; `none` is the `default` branch. -/
def scanSwitch : List String → String → Option String
  | [], _ => none
  | element :: rest, v => if v = element then some (enumConst element) else scanSwitch rest v

/-- The generated `Scan`: the receiver after the call and the error returned
(`none` for a nil error).  `goName` is `ToGoIdentifier $.Name`. -/
def Scan (goName : String) (m : EnumInfo) (e : String) (value : Value) : String × Option String :=
  match value with
  | .string v =>
    match scanSwitch m.Values v with
    | some c => (c, none)
    | none => (e, some ("jet: Inavlid data " ++ v ++ "for " ++ goName ++ " enum"))
  | _ => (e, some ("jet: Invalid data for " ++ goName ++ " enum"))

/-- The generated `String` method. -/
def String (e : String) : String := e

end enumModel

/-! ## The destination check of `Query` (exercised by `tests/postgres/scan_test.go`) -/

namespace qrm

/-- The shape of a Go type as far as the destination check reads it.  `scalar`
stands for the types a single column is stored in (`int32`, `string`, ...). -/
inductive GoType where
  | scalar
  | struct
  | map
  | slice (elem : GoType)
  | pointer (elem : GoType)
  deriving DecidableEq, Repr

/-- The destination argument of `Query`: `nil`, or an initialized value of a type. -/
inductive Destination where
  | nil
  | value (t : GoType)
  deriving DecidableEq, Repr

/-- Modelled from the spec: the element types a slice destination may have.
The mapper is not among the translated files; the spec names records, scalars
and references to records, and `TestScanToValidDestination` also scans into
`&[]*int32{}`, a slice of references to scalars. -/
def supportedSliceElem : GoType → Bool
  | .struct => true
  | .scalar => true
  | .pointer .struct => true
  | .pointer .scalar => true
  | _ => false

/-- Modelled from the spec: the destination check `Query` makes before it maps
rows; the mapper is not among the translated files.  The messages are those
`TestScanToInvalidDestination` expects; `none` is an accepted destination. -/
def checkDestination : Destination → Option String
  | .nil => some "jet: destination is nil"
  | .value (.pointer .struct) => none
  | .value (.pointer (.slice elem)) =>
    if supportedSliceElem elem then none else some "jet: unsupported slice element type"
  | .value _ => some "jet: destination has to be a pointer to slice or pointer to struct"

/-- The destinations the claim lists as accepted: a pointer to a struct, or a
pointer to a slice of structs, of pointers to structs, of scalars or of
pointers to scalars. -/
def Accepted (dest : Destination) : Prop :=
  dest = .value (.pointer .struct) ∨
  dest = .value (.pointer (.slice .struct)) ∨
  dest = .value (.pointer (.slice (.pointer .struct))) ∨
  dest = .value (.pointer (.slice .scalar)) ∨
  dest = .value (.pointer (.slice (.pointer .scalar)))

end qrm

/-! ## The query result mapper (exercised by `tests/postgres/scan_test.go`)

The mapper is not among the translated files.  The definitions below follow
the spec's description of it (scan plan, row loop, scalar coercion) and the
outcomes `scan_test.go` expects. -/

namespace qrm

/-- Modelled from the spec: the scalar types of column values and destination
fields; `named` is a newtype over a base type.  Types with a scan override of
their own (a UUID) are outside the model. -/
inductive Kind where
  | bool
  | int8
  | int16
  | int32
  | int64
  | int
  | uint8
  | uint16
  | uint32
  | uint64
  | float64
  | string
  | time
  | named (name : String) (base : Kind)
  deriving DecidableEq, Repr

/-- The Go name of a type, as the error messages print it. -/
def Kind.name : Kind → String
  | .bool => "bool"
  | .int8 => "int8"
  | .int16 => "int16"
  | .int32 => "int32"
  | .int64 => "int64"
  | .int => "int"
  | .uint8 => "uint8"
  | .uint16 => "uint16"
  | .uint32 => "uint32"
  | .uint64 => "uint64"
  | .float64 => "float64"
  | .string => "string"
  | .time => "time.Time"
  | .named name _ => name

/-- The type under the newtypes. -/
def Kind.base : Kind → Kind
  | .named _ base => base.base
  | k => k

/-- For an integer type, whether it is signed and its width in bits. -/
def Kind.integer : Kind → Option (Bool × Nat)
  | .int8 => some (true, 8)
  | .int16 => some (true, 16)
  | .int32 => some (true, 32)
  | .int64 => some (true, 64)
  | .int => some (true, 64)
  | .uint8 => some (false, 8)
  | .uint16 => some (false, 16)
  | .uint32 => some (false, 32)
  | .uint64 => some (false, 64)
  | _ => none

/-- Modelled from the spec: the lossless conversions of "Scalar coercion": the
same underlying type (a type and its newtypes, time into time) and a smaller
integer into a larger integer of the same signedness. -/
def lossless (src dst : Kind) : Bool :=
  src.base == dst.base ||
  match src.base.integer, dst.base.integer with
  | some (s₁, b₁), some (s₂, b₂) => s₁ == s₂ && b₁ ≤ b₂
  | _, _ => false

/-- Modelled from the spec: the conversions the mapper makes when it writes a
column value: the lossless ones and, as `TestScanToStruct` ("type convert int32
to int") scans the `int16` column `film_id` into a `string` field without
error, an integer into a string. -/
def accepts (src dst : Kind) : Bool :=
  lossless src dst || (src.base.integer.isSome && dst.base == .string)

/-- The content of a column value, whatever its type. -/
inductive Data where
  | int (v : Int)
  | text (v : String)
  | bool (v : Bool)
  | real (bits : Nat)
  deriving DecidableEq, Repr

/-- A column value: its Go type as the driver hands it over, and its content. -/
structure Val where
  kind : Kind
  data : Data
  deriving DecidableEq, Repr

/-- A cell of a row; `none` is SQL NULL. -/
abbrev Cell := Option Val

/-- A result row: the cells in the order of the selected columns. -/
abbrev Row := List Cell

/-- The value stored for `v` in a destination of type `dst`: the content of
`v` seen as a `dst`. -/
def convert (v : Val) (dst : Kind) : Val :=
  { kind := dst, data := v.data }

/-- Modelled from the spec: a scalar field of a group as the scan plan has
it: the selected column it is matched with (a position in the row), the type
of the field and whether the field is tagged `primary_key`. -/
structure ColumnField where
  column : Nat
  target : Kind
  primaryKey : Bool
  deriving DecidableEq, Repr

/-- The cell of `row` that field `f` is matched with. -/
def cell (row : Row) (f : ColumnField) : Cell :=
  row.getD f.column none

/-- Modelled from the spec: the strategy of a field that is a child group. -/
inductive Strategy where
  | embed
  | pointer
  | slice
  | sliceOfPointer
  | scalarSlice
  deriving DecidableEq, Repr

mutual
/-- Modelled from the spec: a group of the scan plan: its scalar fields with
their columns, and its child groups. -/
inductive Group where
  | mk (fields : List ColumnField) (children : Children)
/-- The child groups of a group, keyed by field name, in field order. -/
inductive Children where
  | nil
  | cons (name : String) (strategy : Strategy) (group : Group) (rest : Children)
end

/-- The scalar fields of a group. -/
def Group.fields : Group → List ColumnField
  | .mk fields _ => fields

/-- The child groups of a group. -/
def Group.children : Group → Children
  | .mk _ children => children

/-- The child group at position `i`. -/
def Children.get? : Children → Nat → Option (String × Strategy × Group)
  | .nil, _ => none
  | .cons name strategy group _, 0 => some (name, strategy, group)
  | .cons _ _ _ rest, i + 1 => rest.get? i

/-- A record of the destination as the mapper has built it: the key of the
group instance, the values of its scalar fields (`none` for a field left
unset) and, per child group, the instances of that child (an empty list is a
child field never written: a nil pointer, a nil slice); or one element of a
slice of scalars. -/
inductive Instance where
  | record (key : List Cell) (fields : List (Option Val)) (children : List (List Instance))
  | scalar (v : Val)

mutual
/-- Modelled from the spec: a group is present in a row when one of its
selected columns, those of its nested groups included, is not NULL. -/
def Group.present : Group → Row → Bool
  | .mk fields children, row =>
    fields.any (fun f => (cell row f).isSome) || children.present row
/-- Some child group is present in the row. -/
def Children.present : Children → Row → Bool
  | .nil, _ => false
  | .cons _ _ group rest, row => group.present row || rest.present row
end

/-- Modelled from the spec: the key of a group in a row: the cells of its
primary-key fields, or, when no field is tagged, all its non-NULL cells. -/
def groupKey (fields : List ColumnField) (row : Row) : List Cell :=
  if fields.any (fun f => f.primaryKey) then
    (fields.filter (fun f => f.primaryKey)).map (cell row)
  else
    (fields.map (cell row)).filter Option.isSome

/-- The key of group `g` in `row`. -/
def Group.key (g : Group) (row : Row) : List Cell :=
  groupKey g.fields row

/-- Modelled from the spec: the write of a column value into a scalar field.
NULL leaves the field unset; a value of a type the mapper cannot convert is
fatal, with the message `TestScanToStruct` ("type mismatch base type") expects. -/
def setField (f : ColumnField) (row : Row) : Except String (Option Val) :=
  match cell row f with
  | none => .ok none
  | some v =>
    if accepts v.kind f.target then .ok (some (convert v f.target))
    else .error ("jet: can't set " ++ v.kind.name ++ " to " ++ f.target.name)

/-- The writes of all scalar fields of a new instance, in field order. -/
def setFields : List ColumnField → Row → Except String (List (Option Val))
  | [], _ => .ok []
  | f :: fs, row =>
    match setField f row with
    | .error e => .error e
    | .ok v =>
      match setFields fs row with
      | .error e => .error e
      | .ok vs => .ok (v :: vs)

/-- The field values an instance created from `row` holds when no write fails. -/
def storedFields (fields : List ColumnField) (row : Row) : List (Option Val) :=
  fields.map fun f => (cell row f).map fun v => convert v f.target

/-- Modelled from the spec: one row into a slice of scalars aliased to a
column: a non-NULL value is converted and appended, with the message
`TestScanToSlice` ("slice type mismatch") expects when it cannot be. -/
def appendScalar (f : ColumnField) (dest : List Instance) (row : Row) :
    Except String (List Instance) :=
  match cell row f with
  | none => .ok dest
  | some v =>
    if accepts v.kind f.target then .ok (dest ++ [.scalar (convert v f.target)])
    else .error ("jet: can't append " ++ v.kind.name ++ " to []" ++ f.target.name ++ " slice")

/-- The scalar slice of a child group: one append per matched column. -/
def appendScalars : List ColumnField → List Instance → Row → Except String (List Instance)
  | [], dest, _ => .ok dest
  | f :: fs, dest, row =>
    match appendScalar f dest row with
    | .error e => .error e
    | .ok dest' => appendScalars fs dest' row

/-- The frame of a group: the fields and children of the current instance,
when its key is `key`. -/
def current (dest : List Instance) (key : List Cell) :
    Option (List (Option Val) × List (List Instance)) :=
  match dest.getLast? with
  | some (.record k vals kids) => if k = key then some (vals, kids) else none
  | _ => none

/-- A singleton field holds the instance last assigned to it. -/
def lastOnly (dest : List Instance) : List Instance :=
  dest.getLast?.toList

mutual
/-- Modelled from the spec: the row loop at one group, `dest` being the
instances of the group built so far under the current parent.  An absent
group changes nothing; a key equal to the last key reuses the current
instance and descends into its child groups; any other key creates a new
instance from the row, descends, and appends it. -/
def mapRow : Group → List Instance → Row → Except String (List Instance)
  | .mk fields children, dest, row =>
    if !(fields.any (fun f => (cell row f).isSome) || children.present row) then .ok dest
    else
      match current dest (groupKey fields row) with
      | some (vals, kids) =>
        match mapChildren children kids row with
        | .error e => .error e
        | .ok kids' => .ok (dest.dropLast ++ [.record (groupKey fields row) vals kids'])
      | none =>
        match setFields fields row with
        | .error e => .error e
        | .ok vals =>
          match mapChildren children [] row with
          | .error e => .error e
          | .ok kids => .ok (dest ++ [.record (groupKey fields row) vals kids])
/-- The descent into the child groups of an instance: `kids` holds, per child
group, the instances built so far; a child not yet written counts as empty. -/
def mapChildren : Children → List (List Instance) → Row → Except String (List (List Instance))
  | .nil, _, _ => .ok []
  | .cons _ .scalarSlice (.mk fields _) rest, kids, row =>
    match appendScalars fields (kids.headD []) row with
    | .error e => .error e
    | .ok child =>
      match mapChildren rest kids.tail row with
      | .error e => .error e
      | .ok more => .ok (child :: more)
  | .cons _ .slice group rest, kids, row =>
    match mapRow group (kids.headD []) row with
    | .error e => .error e
    | .ok child =>
      match mapChildren rest kids.tail row with
      | .error e => .error e
      | .ok more => .ok (child :: more)
  | .cons _ .sliceOfPointer group rest, kids, row =>
    match mapRow group (kids.headD []) row with
    | .error e => .error e
    | .ok child =>
      match mapChildren rest kids.tail row with
      | .error e => .error e
      | .ok more => .ok (child :: more)
  | .cons _ .embed group rest, kids, row =>
    match mapRow group (kids.headD []) row with
    | .error e => .error e
    | .ok child =>
      match mapChildren rest kids.tail row with
      | .error e => .error e
      | .ok more => .ok (lastOnly child :: more)
  | .cons _ .pointer group rest, kids, row =>
    match mapRow group (kids.headD []) row with
    | .error e => .error e
    | .ok child =>
      match mapChildren rest kids.tail row with
      | .error e => .error e
      | .ok more => .ok (lastOnly child :: more)
end

/-- The row loop over a row stream, from the instances `dest`. -/
def mapRows (g : Group) : List Instance → List Row → Except String (List Instance)
  | dest, [] => .ok dest
  | dest, row :: rows =>
    match mapRow g dest row with
    | .error e => .error e
    | .ok dest' => mapRows g dest' rows

/-- The errors of a scan: the distinguished no-rows error, or a fatal one. -/
inductive ScanError where
  | noRows
  | fatal (message : String)
  deriving DecidableEq, Repr

/-- Modelled from the spec: the scan into a sequence of records, which starts
empty as in every test. -/
def scanToSlice (g : Group) (rows : List Row) : Except String (List Instance) :=
  mapRows g [] rows

/-- Modelled from the spec: the scan into a sequence of scalars: the first
selected column of every row. -/
def scanToScalars (target : Kind) : List Instance → List Row → Except String (List Instance)
  | dest, [] => .ok dest
  | dest, row :: rows =>
    match appendScalar { column := 0, target := target, primaryKey := false } dest row with
    | .error e => .error e
    | .ok dest' => scanToScalars target dest' rows

/-- Modelled from the spec: the scan into the single record `dest`: the
destination after the scan and the error returned.  Zero rows give the
no-rows error; otherwise the rows go through the row loop and the first
top-level instance, when there is one, is written to the destination. -/
def scanToStruct (g : Group) (dest : Instance) (rows : List Row) : Instance × Option ScanError :=
  match rows with
  | [] => (dest, some .noRows)
  | _ :: _ =>
    match mapRows g [] rows with
    | .error e => (dest, some (.fatal e))
    | .ok [] => (dest, none)
    | .ok (first :: _) => (first, none)

end qrm

/-! ## Specification of the grouping and example plans -/

namespace qrm

mutual
/-- The selected columns that belong to a group, those of its nested groups included. -/
def Group.allFields : Group → List ColumnField
  | .mk fields children => fields ++ children.allFields
/-- The selected columns of the child groups. -/
def Children.allFields : Children → List ColumnField
  | .nil => []
  | .cons _ _ group rest => group.allFields ++ rest.allFields
end

/-- Whether the write of field `f` from `row` succeeds. -/
def fieldOk (f : ColumnField) (row : Row) : Bool :=
  match cell row f with
  | none => true
  | some v => accepts v.kind f.target

/-- The record the mapper builds for a run of rows that carry one key: key and
fields from the first row of the run, children `kidsOf run`. -/
def recordOf (fields : List ColumnField) (kidsOf : List Row → List (List Instance))
    (run : List Row) : Instance :=
  .record (groupKey fields (run.headD [])) (storedFields fields (run.headD [])) (kidsOf run)

/-- The child record built from one row: a group without children of its own. -/
def childOf (fields : List ColumnField) (row : Row) : Instance :=
  .record (groupKey fields row) (storedFields fields row) []

/-- The element a row adds to a slice of scalars aliased to `f`, if any. -/
def scalarOf (f : ColumnField) (row : Row) : Option Instance :=
  (cell row f).map fun v => .scalar (convert v f.target)

/-- The runs split the rows into consecutive blocks, one for each distinct
key: their concatenation is the row stream, the rows of a run carry the key
of its first row, and no two runs carry the same key. -/
def GroupedInto (key : Row → List Cell) (rows : List Row) (runs : List (List Row)) : Prop :=
  runs.flatten = rows ∧
  (∀ run ∈ runs, run ≠ [] ∧ ∀ x ∈ run, key x = key (run.headD [])) ∧
  (runs.map fun run => key (run.headD [])).Nodup

/-- The values of the scalar fields of a record. -/
def Instance.fields : Instance → List (Option Val)
  | .record _ fields _ => fields
  | .scalar _ => []

/-- The children of a record, per child group. -/
def Instance.children : Instance → List (List Instance)
  | .record _ _ children => children
  | .scalar _ => []

/-- The columns `film.film_id` (primary key) and `film.title`. -/
def filmFields : List ColumnField :=
  [{ column := 0, target := .int32, primaryKey := true },
   { column := 1, target := .string, primaryKey := false }]

/-- The columns `inventory.inventory_id` (primary key) and `inventory.store_id`. -/
def inventoryFields : List ColumnField :=
  [{ column := 2, target := .int32, primaryKey := true },
   { column := 3, target := .int16, primaryKey := false }]

/-- The column `inventory.inventory_id` as the alias of a slice of `int32`. -/
def inventoryID : ColumnField :=
  { column := 2, target := .int32, primaryKey := false }

/-- The plan of `[]struct { model.Film; Inventories []struct { model.Inventory } }`. -/
def filmWithInventories : Group :=
  .mk filmFields (.cons "Inventories" .slice (.mk inventoryFields .nil) .nil)

/-- The plan of `[]struct { model.Film; IDs []int32 }`, `IDs` aliased to
`inventory.inventory_id`. -/
def filmWithIDs : Group :=
  .mk filmFields (.cons "IDs" .scalarSlice (.mk [inventoryID] .nil) .nil)

/-- The plan of `struct { model.Film; Inventory *model.Inventory }`. -/
def filmWithInventoryPointer : Group :=
  .mk filmFields (.cons "Inventory" .pointer (.mk inventoryFields .nil) .nil)

/-- A row of `film` joined with `inventory`: film id, title, inventory id, store id. -/
def joinRow (film : Int) (title : String) (inventory store : Int) : Row :=
  [some ⟨.int32, .int film⟩, some ⟨.string, .text title⟩,
   some ⟨.int32, .int inventory⟩, some ⟨.int16, .int store⟩]

/-- A row of `film` left-joined with `inventory` for a film without inventory. -/
def filmOnlyRow (film : Int) (title : String) : Row :=
  [some ⟨.int32, .int film⟩, some ⟨.string, .text title⟩, none, none]

/-- Eight inventory rows of film 1 followed by two of film 2, as in the tests. -/
def tenRows : List Row :=
  [joinRow 1 "Academy Dinosaur" 1 1, joinRow 1 "Academy Dinosaur" 2 1,
   joinRow 1 "Academy Dinosaur" 3 1, joinRow 1 "Academy Dinosaur" 4 1,
   joinRow 1 "Academy Dinosaur" 5 2, joinRow 1 "Academy Dinosaur" 6 2,
   joinRow 1 "Academy Dinosaur" 7 2, joinRow 1 "Academy Dinosaur" 8 2,
   joinRow 2 "Ace Goldfinger" 9 2, joinRow 2 "Ace Goldfinger" 10 2]

/-- The same joined row twice. -/
def duplicateRows : List Row :=
  [joinRow 1 "Academy Dinosaur" 1 1, joinRow 1 "Academy Dinosaur" 1 1]

/-- The number of children of each entry of a result, per child group. -/
def childCounts (res : Except String (List Instance)) : List (List Nat) :=
  match res with
  | .ok l => l.map fun e => e.children.map List.length
  | .error _ => []

/-- The rank of a key whose first cell is an integer: that integer. -/
def firstInt (key : List Cell) : Nat :=
  match key with
  | some ⟨_, .int v⟩ :: _ => v.toNat
  | _ => 0

end qrm

/-! ## Example heaps -/

/-- Two range columns `a`, `b` and two boolean columns `p`, `q`: objects of
types declared elsewhere, each with the parent pointer to itself. -/
def columns : Heap :=
  [ { payload := .foreign ⟨"a", []⟩, expressionParent := some 0, boolParent := none,
      rangeParent := some 0 },
    { payload := .foreign ⟨"b", []⟩, expressionParent := some 1, boolParent := none,
      rangeParent := some 1 },
    { payload := .foreign ⟨"p", []⟩, expressionParent := some 2, boolParent := some 2,
      rangeParent := none },
    { payload := .foreign ⟨"q = $1", ["7"]⟩, expressionParent := some 3, boolParent := some 3,
      rangeParent := none } ]

/-- The operator of the node a building call returned, if it is an operator node. -/
def resultOperator (res : Option (Heap × Ref)) : Option String :=
  match res with
  | none => none
  | some (h, r) =>
    match h[r]? with
    | none => none
    | some o =>
      match o.payload with
      | .binaryOpExpression _ _ operator => some operator
      | .prefixOpExpression _ operator => some operator
      | .postfixOpExpression _ operator => some operator
      | _ => none

/-- The metadata of a table `dvds.actor` with three columns, two of them mutable. -/
def actorInfo : template.TableInfo :=
  { SchemaName := "dvds", Name := "actor", GoStructName := "ActorTable",
    Columns := [⟨"actor_id", "Integer"⟩, ⟨"first_name", "String"⟩, ⟨"last_name", "String"⟩],
    MutableColumns := [⟨"first_name", "String"⟩, ⟨"last_name", "String"⟩] }

/-- The metadata of an enum `mpaa_rating`. -/
def mpaaRating : enumModel.EnumInfo :=
  { Name := "mpaa_rating", Values := ["G", "PG", "PG-13", "R", "NC-17"] }

/-- Field read `e.parent` for `e *expressionInterfaceImpl` embedded in the object at `r`. -/
def expressionParentOf (h : Heap) (r : Ref) : Option Ref :=
  h[r]?.bind Object.expressionParent

/-- An operator table with the PostgreSQL operator texts. -/
def postgresOperators : Operators :=
  { eq := "=", notEq := "!=", isDistinctFrom := "IS DISTINCT FROM",
    isNotDistinctFrom := "IS NOT DISTINCT FROM", lt := "<", ltEq := "<=", gt := ">",
    gtEq := ">=", contains := "@>", overlap := "&&" }

/-! ## Lemmas on the heap and the serializer -/

theorem Heap.WF.children_lt {h : Heap} (hw : h.WF) {r : Nat} {o : Object}
    (ho : h[r]? = some o) {c : Nat} (hc : c ∈ o.payload.children) : c < r := by
  obtain ⟨hr, rfl⟩ := List.getElem?_eq_some_iff.mp ho
  exact hw ⟨r, hr⟩ c hc

theorem wf_alloc {h : Heap} (hw : h.WF) (o : Object)
    (ho : ∀ c ∈ o.payload.children, c < h.length) : (Jet.alloc h o).1.WF := by
  intro r c hc
  have hr : r.val < (h ++ [o]).length := r.isLt
  by_cases hlt : r.val < h.length
  · have e : (h ++ [o])[r.val]? = h[r.val]? := List.getElem?_append_left hlt
    have e2 : (h ++ [o])[r.val]? = some ((h ++ [o]).get r) := by
      simp [List.getElem?_eq_getElem hr]
    exact hw.children_lt (e ▸ e2) hc
  · have hlen : r.val = h.length := by
      simp at hr; omega
    have e2 : (h ++ [o])[r.val]? = some ((h ++ [o]).get r) := by
      simp [List.getElem?_eq_getElem hr]
    have e3 : (h ++ [o])[r.val]? = some o := by
      rw [hlen]; simp
    have : (h ++ [o]).get r = o := by
      rw [e2] at e3; exact Option.some.inj e3
    have hc2 : c ∈ o.payload.children := this ▸ hc
    rw [hlen]; exact ho c hc2

/-- Objects allocated later do not change how an object of a well-formed heap serializes. -/
theorem serialize_append (d : Renderer) {h : Heap} (hw : h.WF) (t : Heap) :
    ∀ (fuel : Nat) (r : Nat), r < h.length →
      serialize d (h ++ t) fuel r = serialize d h fuel r := by
  intro fuel
  induction fuel with
  | zero => intro r _; rfl
  | succ n ih =>
    intro r hr
    have e : (h ++ t)[r]? = h[r]? := List.getElem?_append_left hr
    have ho : h[r]? = some h[r] := List.getElem?_eq_getElem hr
    have hc : ∀ c ∈ (h[r]).payload.children, c < h.length :=
      fun c hc => Nat.lt_trans (hw.children_lt ho hc) hr
    simp only [serialize, e, ho]
    cases hp : (h[r]).payload with
    | foreign out => rfl
    | binaryOpExpression lhs rhs op =>
      simp only [hp, Payload.children] at hc
      simp only [ih lhs (hc lhs (by simp)), ih rhs (hc rhs (by simp))]
    | prefixOpExpression e op =>
      simp only [hp, Payload.children] at hc
      simp only [ih e (hc e (by simp))]
    | postfixOpExpression e op =>
      simp only [hp, Payload.children] at hc
      simp only [ih e (hc e (by simp))]
    | wrapped e =>
      simp only [hp, Payload.children] at hc
      simp only [ih e (hc e (by simp))]

/-- In a well-formed heap every object serializes, with the same result for
every amount of fuel above its position. -/
theorem serialize_total (d : Renderer) {h : Heap} (hw : h.WF) :
    ∀ r : Nat, r < h.length →
      ∃ out, ∀ fuel : Nat, r < fuel → serialize d h fuel r = some out := by
  intro r
  induction r using Nat.strong_induction_on with
  | _ r ih =>
    intro hr
    have ho : h[r]? = some h[r] := List.getElem?_eq_getElem hr
    have hc : ∀ c ∈ (h[r]).payload.children, c < r := fun c hc => hw.children_lt ho hc
    cases hp : (h[r]).payload with
    | foreign out =>
      refine ⟨out, fun fuel hf => ?_⟩
      obtain ⟨n, rfl⟩ : ∃ n, fuel = n + 1 := ⟨fuel - 1, by omega⟩
      simp only [serialize, ho, hp]
    | binaryOpExpression lhs rhs op =>
      simp only [hp, Payload.children] at hc
      have hl : @LT.lt Nat _ lhs r := hc lhs (by simp)
      have hrr : @LT.lt Nat _ rhs r := hc rhs (by simp)
      obtain ⟨a, ha⟩ := ih lhs hl (Nat.lt_trans hl hr)
      obtain ⟨b, hb⟩ := ih rhs hrr (Nat.lt_trans hrr hr)
      refine ⟨d.binary op a b, fun fuel hf => ?_⟩
      obtain ⟨n, rfl⟩ : ∃ n, fuel = n + 1 := ⟨fuel - 1, by omega⟩
      simp only [serialize, ho, hp, ha n (by omega), hb n (by omega)]
    | prefixOpExpression e op =>
      simp only [hp, Payload.children] at hc
      have he : @LT.lt Nat _ e r := hc e (by simp)
      obtain ⟨a, ha⟩ := ih e he (Nat.lt_trans he hr)
      refine ⟨d.prefixOp op a, fun fuel hf => ?_⟩
      obtain ⟨n, rfl⟩ : ∃ n, fuel = n + 1 := ⟨fuel - 1, by omega⟩
      simp only [serialize, ho, hp, ha n (by omega), Option.map]
    | postfixOpExpression e op =>
      simp only [hp, Payload.children] at hc
      have he : @LT.lt Nat _ e r := hc e (by simp)
      obtain ⟨a, ha⟩ := ih e he (Nat.lt_trans he hr)
      refine ⟨d.postfixOp op a, fun fuel hf => ?_⟩
      obtain ⟨n, rfl⟩ : ∃ n, fuel = n + 1 := ⟨fuel - 1, by omega⟩
      simp only [serialize, ho, hp, ha n (by omega), Option.map]
    | wrapped e =>
      simp only [hp, Payload.children] at hc
      have he : @LT.lt Nat _ e r := hc e (by simp)
      obtain ⟨a, ha⟩ := ih e he (Nat.lt_trans he hr)
      refine ⟨a, fun fuel hf => ?_⟩
      obtain ⟨n, rfl⟩ : ∃ n, fuel = n + 1 := ⟨fuel - 1, by omega⟩
      simp only [serialize, ho, hp, ha n (by omega)]

theorem rangeParentOf_lt {h : Heap} {a p : Nat} (ha : rangeParentOf h a = some p) :
    a < h.length := by
  unfold rangeParentOf at ha
  by_contra hge
  have : h[a]? = none := List.getElem?_eq_none (Nat.le_of_not_lt hge)
  simp [this] at ha

theorem boolParentOf_lt {h : Heap} {a p : Nat} (ha : boolParentOf h a = some p) :
    a < h.length := by
  unfold boolParentOf at ha
  by_contra hge
  have : h[a]? = none := List.getElem?_eq_none (Nat.le_of_not_lt hge)
  simp [this] at ha

/-- A wrapper serializes as the expression it wraps: one more unit of fuel, the same SQL. -/
theorem serialize_wrapped (d : Renderer) {h : Heap} {r e : Nat} {o : Object}
    (ho : h[r]? = some o) (hp : o.payload = .wrapped e) (fuel : Nat) :
    serialize d h (fuel + 1) r = serialize d h fuel e := by
  simp only [serialize, ho, hp]

theorem serialize_binary (d : Renderer) {h : Heap} {r lhs rhs : Nat} {op : String} {o : Object}
    (ho : h[r]? = some o) (hp : o.payload = .binaryOpExpression lhs rhs op) (fuel : Nat)
    {x y : SQL} (hx : serialize d h fuel lhs = some x) (hy : serialize d h fuel rhs = some y) :
    serialize d h (fuel + 1) r = some (d.binary op x y) := by
  simp only [serialize, ho, hp, hx, hy]

/-- What `r.parent <op> rhs` wrapped by `RangeExp` is and how it serializes; the
common part of `UNION`, `INTERSECTION` and `DIFFERENCE`. -/
theorem wrapped_binaryOperator (d : Renderer) (h : Heap) (a b : Nat) (op : String)
    (hw : h.WF) (hal : a < h.length) (hb : b < h.length) :
    (jet.binaryOperator h a b op).1[(jet.binaryOperator h a b op).2]? = some
        { payload := .binaryOpExpression a b op, expressionParent := some h.length,
          boolParent := none, rangeParent := none } ∧
    (jet.RangeExp (jet.binaryOperator h a b op).1 (jet.binaryOperator h a b op).2).1[
        (jet.binaryOperator h a b op).2]? =
      (jet.binaryOperator h a b op).1[(jet.binaryOperator h a b op).2]? ∧
    (jet.RangeExp (jet.binaryOperator h a b op).1 (jet.binaryOperator h a b op).2).1[
        (jet.RangeExp (jet.binaryOperator h a b op).1 (jet.binaryOperator h a b op).2).2]? = some
        { payload := .wrapped (jet.binaryOperator h a b op).2, expressionParent := none,
          boolParent := none,
          rangeParent :=
            some (jet.RangeExp (jet.binaryOperator h a b op).1 (jet.binaryOperator h a b op).2).2 } ∧
    ∃ x y, render d h a = some x ∧ render d h b = some y ∧
      render d (jet.RangeExp (jet.binaryOperator h a b op).1 (jet.binaryOperator h a b op).2).1
          (jet.RangeExp (jet.binaryOperator h a b op).1 (jet.binaryOperator h a b op).2).2 =
        some (d.binary op x y) ∧
      render d (jet.binaryOperator h a b op).1 (jet.binaryOperator h a b op).2 =
        some (d.binary op x y) := by
  obtain ⟨x, hx⟩ := serialize_total d hw a hal
  obtain ⟨y, hy⟩ := serialize_total d hw b hb
  obtain ⟨o1, ho1⟩ : ∃ o1 : Object, Object.mk (.binaryOpExpression a b op) (some h.length)
      none none = o1 := ⟨_, rfl⟩
  have hp1 : o1.payload = .binaryOpExpression a b op := by rw [← ho1]
  have hsum : jet.binaryOperator h a b op = (h ++ [o1], h.length) := by
    rw [← ho1]; rfl
  rw [hsum]
  obtain ⟨o2, ho2⟩ : ∃ o2 : Object, Object.mk (.wrapped h.length) none none
      (some (h.length + 1)) = o2 := ⟨_, rfl⟩
  have hp2 : o2.payload = .wrapped h.length := by rw [← ho2]
  have hres : jet.RangeExp (h ++ [o1]) h.length = (h ++ [o1] ++ [o2], h.length + 1) := by
    rw [← ho2]; simp [jet.RangeExp, jet.newRangeExpressionWrap, alloc]
  rw [hres]
  have g1 : (h ++ [o1])[h.length]? = some o1 := by simp
  have g1' : (h ++ [o1] ++ [o2])[h.length]? = some o1 := by
    rw [List.append_assoc, List.getElem?_append_right (Nat.le_refl _)]; simp
  have g2 : (h ++ [o1] ++ [o2])[h.length + 1]? = some o2 := by
    have : (h ++ [o1]).length = h.length + 1 := by simp
    rw [← this, List.getElem?_append_right (Nat.le_refl _)]; simp
  have sa1 : serialize d (h ++ [o1]) h.length a = some x := by
    rw [serialize_append d hw _ _ a hal]; exact hx _ hal
  have sb1 : serialize d (h ++ [o1]) h.length b = some y := by
    rw [serialize_append d hw _ _ b hb]; exact hy _ hb
  have sa2 : serialize d (h ++ [o1] ++ [o2]) h.length a = some x := by
    rw [List.append_assoc, serialize_append d hw _ _ a hal]; exact hx _ hal
  have sb2 : serialize d (h ++ [o1] ++ [o2]) h.length b = some y := by
    rw [List.append_assoc, serialize_append d hw _ _ b hb]; exact hy _ hb
  refine ⟨?_, ?_, ?_, x, y, hx _ hal, hy _ hb, ?_, ?_⟩
  · show (h ++ [o1])[h.length]? = some (Object.mk (.binaryOpExpression a b op) (some h.length)
      none none)
    rw [ho1]; exact g1
  · show (h ++ [o1] ++ [o2])[h.length]? = (h ++ [o1])[h.length]?
    rw [g1, g1']
  · show (h ++ [o1] ++ [o2])[h.length + 1]? = some (Object.mk (.wrapped h.length) none none
      (some (h.length + 1)))
    rw [ho2]; exact g2
  · have hlen : (h ++ [o1] ++ [o2]).length = h.length + 1 + 1 := by simp
    show serialize d (h ++ [o1] ++ [o2]) (h ++ [o1] ++ [o2]).length (h.length + 1) = _
    rw [hlen, serialize_wrapped d g2 hp2]
    exact serialize_binary d g1' hp1 _ sa2 sb2
  · have hlen : (h ++ [o1]).length = h.length + 1 := by simp
    show serialize d (h ++ [o1]) (h ++ [o1]).length h.length = _
    rw [hlen]
    exact serialize_binary d g1 hp1 _ sa1 sb1

theorem builds_alloc (h : Heap) (o : Object) : Builds h (some (Jet.alloc h o)) :=
  ⟨h ++ [o], h.length, rfl, Nat.le_refl _, by simp, fun _ hi => List.getElem?_append_left hi⟩

theorem builds_alloc_alloc (h : Heap) (o : Object) (f : Nat → Object) :
    Builds h (some (Jet.alloc (Jet.alloc h o).1 (f (Jet.alloc h o).1.length))) := by
  refine ⟨h ++ [o] ++ [f (h ++ [o]).length], (h ++ [o]).length, rfl, by simp, by simp, ?_⟩
  intro i hi
  rw [List.append_assoc]
  exact List.getElem?_append_left hi

/-- What the generated `AS` does to the store: one new handle, aliased. -/
theorem template.AS_eq (m : template.TableInfo) (h : template.Handles) (a : Nat)
    (aliasName : String) :
    template.AS m h a aliasName =
      (h ++ [{ Table := { schemaName := m.SchemaName, name := m.Name,
                          tableAlias := some aliasName,
                          columns := template.columnList m.Columns }
               Columns := template.columnList m.Columns
               AllColumns := template.columnList m.Columns
               MutableColumns := template.columnList m.MutableColumns }], h.length) := by
  simp [template.AS, template.newGoStruct, template.setAlias, template.NewTable,
    template.Table.AS, List.set_append]

theorem scanSwitch_eq_some (values : List String) (v : String) (hv : v ∈ values) :
    enumModel.scanSwitch values v = some v := by
  induction values with
  | nil => cases hv
  | cons element rest ih =>
    by_cases hev : v = element
    · simp [enumModel.scanSwitch, hev, enumModel.enumConst]
    · have hr : v ∈ rest := by
        rcases List.mem_cons.mp hv with h1 | h1
        · exact absurd h1 hev
        · exact h1
      simp [enumModel.scanSwitch, hev, ih hr]

theorem scanSwitch_eq_none (values : List String) (v : String) (hv : v ∉ values) :
    enumModel.scanSwitch values v = none := by
  induction values with
  | nil => rfl
  | cons element rest ih =>
    have hev : v ≠ element := fun h1 => hv (h1 ▸ List.mem_cons_self _ _)
    have hr : v ∉ rest := fun h1 => hv (List.mem_cons_of_mem _ h1)
    simp [enumModel.scanSwitch, hev, ih hr]

/-! ## Range and Bool operations -/

/-- C1: for a range expression `a` (its parent pointer is itself) and `b` in a
well-formed heap, `a.UNION(b)` allocates the node `Add(a, b)`, a binary node
with left operand `a`, right operand `b` and operator `+`, and returns the
range wrapper around it; the result serializes as `+` over the SQL of `a` and
the SQL of `b`, which is exactly the SQL of the `Add` node. -/
theorem union_is_wrapped_add (d : Renderer) (h : Heap) (a b : Nat)
    (hw : h.WF) (ha : rangeParentOf h a = some a) (hb : b < h.length) :
    jet.rangeInterfaceImpl.UNION h a b =
      some (jet.RangeExp (jet.Add h a b).1 (jet.Add h a b).2) ∧
    (jet.Add h a b).1[(jet.Add h a b).2]? = some
      { payload := .binaryOpExpression a b "+", expressionParent := some h.length,
        boolParent := none, rangeParent := none } ∧
    (jet.RangeExp (jet.Add h a b).1 (jet.Add h a b).2).1[(jet.Add h a b).2]? =
      (jet.Add h a b).1[(jet.Add h a b).2]? ∧
    (jet.RangeExp (jet.Add h a b).1 (jet.Add h a b).2).1[
        (jet.RangeExp (jet.Add h a b).1 (jet.Add h a b).2).2]? = some
      { payload := .wrapped (jet.Add h a b).2, expressionParent := none, boolParent := none,
        rangeParent := some (jet.RangeExp (jet.Add h a b).1 (jet.Add h a b).2).2 } ∧
    ∃ x y, render d h a = some x ∧ render d h b = some y ∧
      render d (jet.RangeExp (jet.Add h a b).1 (jet.Add h a b).2).1
          (jet.RangeExp (jet.Add h a b).1 (jet.Add h a b).2).2 = some (d.binary "+" x y) ∧
      render d (jet.Add h a b).1 (jet.Add h a b).2 = some (d.binary "+" x y) := by
  refine ⟨?_, wrapped_binaryOperator d h a b "+" hw (rangeParentOf_lt ha) hb⟩
  simp [jet.rangeInterfaceImpl.UNION, ha]

theorem union_is_wrapped_add_witness :
    jet.rangeInterfaceImpl.UNION columns 0 1 =
      some (jet.RangeExp (jet.Add columns 0 1).1 (jet.Add columns 0 1).2) ∧
    render parenRenderer (jet.RangeExp (jet.Add columns 0 1).1 (jet.Add columns 0 1).2).1
      (jet.RangeExp (jet.Add columns 0 1).1 (jet.Add columns 0 1).2).2 =
      some ⟨"(a + b)", []⟩ := by
  obtain ⟨h1, _, _, _, x, y, hx, hy, hr, _⟩ :=
    union_is_wrapped_add parenRenderer columns 0 1 (by decide) (by decide) (by decide)
  have ex : render parenRenderer columns 0 = some ⟨"a", []⟩ := by decide
  have ey : render parenRenderer columns 1 = some ⟨"b", []⟩ := by decide
  rw [ex] at hx; rw [ey] at hy
  cases hx; cases hy
  exact ⟨h1, hr⟩

/-- C2: for a range expression `a` (its parent pointer is itself) and `b` in a
well-formed heap, `a.INTERSECTION(b)` is the range wrapper around `Mul(a, b)`,
the binary node `a * b`, and `a.DIFFERENCE(b)` is the range wrapper around
`Sub(a, b)`, the binary node `a - b`; they serialize with the arithmetic
operators `*` and `-` over the SQL of `a` and of `b`. -/
theorem intersection_difference_are_wrapped_mul_sub (d : Renderer) (h : Heap) (a b : Nat)
    (hw : h.WF) (ha : rangeParentOf h a = some a) (hb : b < h.length) :
    (jet.rangeInterfaceImpl.INTERSECTION h a b =
        some (jet.RangeExp (jet.Mul h a b).1 (jet.Mul h a b).2) ∧
      (jet.Mul h a b).1[(jet.Mul h a b).2]? = some
        { payload := .binaryOpExpression a b "*", expressionParent := some h.length,
          boolParent := none, rangeParent := none } ∧
      (jet.RangeExp (jet.Mul h a b).1 (jet.Mul h a b).2).1[(jet.Mul h a b).2]? =
        (jet.Mul h a b).1[(jet.Mul h a b).2]? ∧
      (jet.RangeExp (jet.Mul h a b).1 (jet.Mul h a b).2).1[
          (jet.RangeExp (jet.Mul h a b).1 (jet.Mul h a b).2).2]? = some
        { payload := .wrapped (jet.Mul h a b).2, expressionParent := none, boolParent := none,
          rangeParent := some (jet.RangeExp (jet.Mul h a b).1 (jet.Mul h a b).2).2 }) ∧
    (jet.rangeInterfaceImpl.DIFFERENCE h a b =
        some (jet.RangeExp (jet.Sub h a b).1 (jet.Sub h a b).2) ∧
      (jet.Sub h a b).1[(jet.Sub h a b).2]? = some
        { payload := .binaryOpExpression a b "-", expressionParent := some h.length,
          boolParent := none, rangeParent := none } ∧
      (jet.RangeExp (jet.Sub h a b).1 (jet.Sub h a b).2).1[(jet.Sub h a b).2]? =
        (jet.Sub h a b).1[(jet.Sub h a b).2]? ∧
      (jet.RangeExp (jet.Sub h a b).1 (jet.Sub h a b).2).1[
          (jet.RangeExp (jet.Sub h a b).1 (jet.Sub h a b).2).2]? = some
        { payload := .wrapped (jet.Sub h a b).2, expressionParent := none, boolParent := none,
          rangeParent := some (jet.RangeExp (jet.Sub h a b).1 (jet.Sub h a b).2).2 }) ∧
    ∃ x y, render d h a = some x ∧ render d h b = some y ∧
      render d (jet.RangeExp (jet.Mul h a b).1 (jet.Mul h a b).2).1
          (jet.RangeExp (jet.Mul h a b).1 (jet.Mul h a b).2).2 = some (d.binary "*" x y) ∧
      render d (jet.RangeExp (jet.Sub h a b).1 (jet.Sub h a b).2).1
          (jet.RangeExp (jet.Sub h a b).1 (jet.Sub h a b).2).2 = some (d.binary "-" x y) := by
  have hal := rangeParentOf_lt ha
  obtain ⟨m1, m2, m3, x, y, hx, hy, mr, _⟩ := wrapped_binaryOperator d h a b "*" hw hal hb
  obtain ⟨s1, s2, s3, x', y', hx', hy', sr, _⟩ := wrapped_binaryOperator d h a b "-" hw hal hb
  have ex : x' = x := Option.some.inj (hx'.symm.trans hx)
  have ey : y' = y := Option.some.inj (hy'.symm.trans hy)
  subst ex; subst ey
  refine ⟨⟨?_, m1, m2, m3⟩, ⟨?_, s1, s2, s3⟩, x', y', hx, hy, mr, sr⟩
  · simp [jet.rangeInterfaceImpl.INTERSECTION, ha]
  · simp [jet.rangeInterfaceImpl.DIFFERENCE, ha]

theorem intersection_difference_are_wrapped_mul_sub_witness :
    (jet.rangeInterfaceImpl.INTERSECTION columns 0 1 =
        some (jet.RangeExp (jet.Mul columns 0 1).1 (jet.Mul columns 0 1).2) ∧
      render parenRenderer (jet.RangeExp (jet.Mul columns 0 1).1 (jet.Mul columns 0 1).2).1
        (jet.RangeExp (jet.Mul columns 0 1).1 (jet.Mul columns 0 1).2).2 =
        some ⟨"(a * b)", []⟩) ∧
    (jet.rangeInterfaceImpl.DIFFERENCE columns 0 1 =
        some (jet.RangeExp (jet.Sub columns 0 1).1 (jet.Sub columns 0 1).2) ∧
      render parenRenderer (jet.RangeExp (jet.Sub columns 0 1).1 (jet.Sub columns 0 1).2).1
        (jet.RangeExp (jet.Sub columns 0 1).1 (jet.Sub columns 0 1).2).2 =
        some ⟨"(a - b)", []⟩) := by
  obtain ⟨⟨h1, _⟩, ⟨h2, _⟩, x, y, hx, hy, hm, hs⟩ :=
    intersection_difference_are_wrapped_mul_sub parenRenderer columns 0 1
      (by decide) (by decide) (by decide)
  have ex : render parenRenderer columns 0 = some ⟨"a", []⟩ := by decide
  have ey : render parenRenderer columns 1 = some ⟨"b", []⟩ := by decide
  rw [ex] at hx; rw [ey] at hy
  cases hx; cases hy
  exact ⟨⟨h1, hm⟩, ⟨h2, hs⟩⟩

/-- C3: for every expression `e` of a well-formed heap, `RangeExp(e)` and
`BoolExp(e)` are new wrapper objects around `e` that carry the operation
surface of their kind: the range, resp. boolean, implementation the wrapper
embeds has the wrapper itself as parent, so a method of the kind called on the
wrapper (`UNION`, resp. `AND`) builds its node with the wrapper as left
operand; and each wrapper serializes to exactly the SQL text and argument
vector of `e`, which `e` has: no cast and no other text is emitted. -/
theorem wrappers_serialize_as_wrapped (d : Renderer) (h : Heap) (e : Nat)
    (hw : h.WF) (he : e < h.length) :
    (jet.RangeExp h e =
        (h ++ [{ payload := .wrapped e, expressionParent := none, boolParent := none,
                 rangeParent := some h.length }], h.length) ∧
      rangeParentOf (jet.RangeExp h e).1 (jet.RangeExp h e).2 = some (jet.RangeExp h e).2 ∧
      (∀ b, jet.rangeInterfaceImpl.UNION (jet.RangeExp h e).1 (jet.RangeExp h e).2 b = some
        ((jet.RangeExp h e).1 ++
          [{ payload := .binaryOpExpression (jet.RangeExp h e).2 b "+",
             expressionParent := some (h.length + 1), boolParent := none, rangeParent := none },
           { payload := .wrapped (h.length + 1), expressionParent := none,
             boolParent := none, rangeParent := some (h.length + 2) }], h.length + 2)) ∧
      render d (jet.RangeExp h e).1 (jet.RangeExp h e).2 = render d h e) ∧
    (sqlbuilder.BoolExp h e =
        (h ++ [{ payload := .wrapped e, expressionParent := none, boolParent := some h.length,
                 rangeParent := none }], h.length) ∧
      boolParentOf (sqlbuilder.BoolExp h e).1 (sqlbuilder.BoolExp h e).2 =
        some (sqlbuilder.BoolExp h e).2 ∧
      (∀ b, sqlbuilder.boolInterfaceImpl.AND (sqlbuilder.BoolExp h e).1
          (sqlbuilder.BoolExp h e).2 b = some
        ((sqlbuilder.BoolExp h e).1 ++
          [{ payload := .binaryOpExpression (sqlbuilder.BoolExp h e).2 b "AND",
             expressionParent := some (h.length + 1), boolParent := some (h.length + 1),
             rangeParent := none }], h.length + 1)) ∧
      render d (sqlbuilder.BoolExp h e).1 (sqlbuilder.BoolExp h e).2 = render d h e) ∧
    ∃ out, render d h e = some out := by
  obtain ⟨out, hout⟩ := serialize_total d hw e he
  have key : ∀ o : Object, o.payload = .wrapped e →
      render d (h ++ [o]) h.length = render d h e := by
    intro o hp
    have g : (h ++ [o])[h.length]? = some o := by simp
    have hlen : (h ++ [o]).length = h.length + 1 := by simp
    show serialize d (h ++ [o]) (h ++ [o]).length h.length = serialize d h h.length e
    rw [hlen, serialize_wrapped d g hp, serialize_append d hw _ _ e he]
  have hrp : rangeParentOf (jet.RangeExp h e).1 (jet.RangeExp h e).2 =
      some (jet.RangeExp h e).2 := by
    simp [rangeParentOf, jet.RangeExp, jet.newRangeExpressionWrap, alloc]
  have hbp : boolParentOf (sqlbuilder.BoolExp h e).1 (sqlbuilder.BoolExp h e).2 =
      some (sqlbuilder.BoolExp h e).2 := by
    simp [boolParentOf, sqlbuilder.BoolExp, sqlbuilder.newBoolExpressionWrap, alloc]
  refine ⟨⟨rfl, hrp, ?_, key _ rfl⟩, ⟨rfl, hbp, ?_, key _ rfl⟩, out, hout _ he⟩
  · intro b
    simp only [jet.rangeInterfaceImpl.UNION, hrp, Option.map_some']
    simp [jet.Add, jet.binaryOperator, jet.RangeExp, jet.newRangeExpressionWrap, alloc]
  · intro b
    simp only [sqlbuilder.boolInterfaceImpl.AND, hbp, Option.map_some']
    simp [sqlbuilder.newBinaryBoolExpression, sqlbuilder.newBinaryExpression,
      sqlbuilder.BoolExp, sqlbuilder.newBoolExpressionWrap, alloc]

theorem wrappers_serialize_as_wrapped_witness :
    (jet.RangeExp columns 3 =
        (columns ++ [{ payload := .wrapped 3, expressionParent := none, boolParent := none,
                       rangeParent := some 4 }], 4) ∧
      rangeParentOf (jet.RangeExp columns 3).1 4 = some 4 ∧
      render parenRenderer (jet.RangeExp columns 3).1 (jet.RangeExp columns 3).2 =
        some ⟨"q = $1", ["7"]⟩) ∧
    (sqlbuilder.BoolExp columns 3 =
        (columns ++ [{ payload := .wrapped 3, expressionParent := none, boolParent := some 4,
                       rangeParent := none }], 4) ∧
      boolParentOf (sqlbuilder.BoolExp columns 3).1 4 = some 4 ∧
      render parenRenderer (sqlbuilder.BoolExp columns 3).1 (sqlbuilder.BoolExp columns 3).2 =
        some ⟨"q = $1", ["7"]⟩) := by
  obtain ⟨⟨r1, r2, _, r4⟩, ⟨b1, b2, _, b4⟩, _⟩ :=
    wrappers_serialize_as_wrapped parenRenderer columns 3 (by decide) (by decide)
  have e3 : render parenRenderer columns 3 = some ⟨"q = $1", ["7"]⟩ := by decide
  exact ⟨⟨r1, r2, r4.trans e3⟩, ⟨b1, b2, b4.trans e3⟩⟩

/-- C4: for a boolean expression `a` (its parent pointer is itself) and any
`b`, `a.AND(b)` is a new binary boolean node with operator "AND", left operand
`a` and right operand `b`, and `a.OR(b)` the same with operator "OR". -/
theorem and_or_build_binary_nodes (h : Heap) (a b : Nat) (ha : boolParentOf h a = some a) :
    sqlbuilder.boolInterfaceImpl.AND h a b = some
      (h ++ [{ payload := .binaryOpExpression a b "AND", expressionParent := some h.length,
               boolParent := some h.length, rangeParent := none }], h.length) ∧
    sqlbuilder.boolInterfaceImpl.OR h a b = some
      (h ++ [{ payload := .binaryOpExpression a b "OR", expressionParent := some h.length,
               boolParent := some h.length, rangeParent := none }], h.length) := by
  constructor
  · simp [sqlbuilder.boolInterfaceImpl.AND, ha, sqlbuilder.newBinaryBoolExpression,
      sqlbuilder.newBinaryExpression, alloc]
  · simp [sqlbuilder.boolInterfaceImpl.OR, ha, sqlbuilder.newBinaryBoolExpression,
      sqlbuilder.newBinaryExpression, alloc]

theorem and_or_build_binary_nodes_witness :
    sqlbuilder.boolInterfaceImpl.AND columns 2 3 = some
      (columns ++ [{ payload := .binaryOpExpression 2 3 "AND", expressionParent := some 4,
                     boolParent := some 4, rangeParent := none }], 4) ∧
    sqlbuilder.boolInterfaceImpl.OR columns 2 3 = some
      (columns ++ [{ payload := .binaryOpExpression 2 3 "OR", expressionParent := some 4,
                     boolParent := some 4, rangeParent := none }], 4) :=
  and_or_build_binary_nodes columns 2 3 (by decide)

/-- C5: for a boolean expression `a` (its parent pointer is itself), each of
`IS_TRUE`, `IS_FALSE`, `IS_UNKNOWN` builds a new postfix node over `a` with
operator "IS TRUE", "IS FALSE", "IS UNKNOWN", each negated form builds a
postfix node over `a` whose operator is the positive one with " NOT" put after
"IS", and the six operators of the six results are pairwise distinct. -/
theorem is_operators_build_postfix_nodes (h : Heap) (a : Nat) (ha : boolParentOf h a = some a) :
    (sqlbuilder.boolInterfaceImpl.IS_TRUE h a = some
        (h ++ [{ payload := .postfixOpExpression a "IS TRUE", expressionParent := some h.length,
                 boolParent := some h.length, rangeParent := none }], h.length) ∧
      sqlbuilder.boolInterfaceImpl.IS_FALSE h a = some
        (h ++ [{ payload := .postfixOpExpression a "IS FALSE", expressionParent := some h.length,
                 boolParent := some h.length, rangeParent := none }], h.length) ∧
      sqlbuilder.boolInterfaceImpl.IS_UNKNOWN h a = some
        (h ++ [{ payload := .postfixOpExpression a "IS UNKNOWN", expressionParent := some h.length,
                 boolParent := some h.length, rangeParent := none }], h.length)) ∧
    (sqlbuilder.boolInterfaceImpl.IS_NOT_TRUE h a = some
        (h ++ [{ payload := .postfixOpExpression a ("IS" ++ " NOT" ++ " TRUE"),
                 expressionParent := some h.length,
                 boolParent := some h.length, rangeParent := none }], h.length) ∧
      sqlbuilder.boolInterfaceImpl.IS_NOT_FALSE h a = some
        (h ++ [{ payload := .postfixOpExpression a ("IS" ++ " NOT" ++ " FALSE"),
                 expressionParent := some h.length,
                 boolParent := some h.length, rangeParent := none }], h.length) ∧
      sqlbuilder.boolInterfaceImpl.IS_NOT_UNKNOWN h a = some
        (h ++ [{ payload := .postfixOpExpression a ("IS" ++ " NOT" ++ " UNKNOWN"),
                 expressionParent := some h.length,
                 boolParent := some h.length, rangeParent := none }], h.length)) ∧
    ([ sqlbuilder.boolInterfaceImpl.IS_TRUE h a, sqlbuilder.boolInterfaceImpl.IS_NOT_TRUE h a,
       sqlbuilder.boolInterfaceImpl.IS_FALSE h a, sqlbuilder.boolInterfaceImpl.IS_NOT_FALSE h a,
       sqlbuilder.boolInterfaceImpl.IS_UNKNOWN h a,
       sqlbuilder.boolInterfaceImpl.IS_NOT_UNKNOWN h a ].map resultOperator).Nodup := by
  have key : ∀ op : String,
      (boolParentOf h a).map (fun parent => sqlbuilder.newPostifxBoolExpression h parent op) =
        some (h ++ [{ payload := .postfixOpExpression a op, expressionParent := some h.length,
                      boolParent := some h.length, rangeParent := none }], h.length) := by
    intro op
    simp [ha, sqlbuilder.newPostifxBoolExpression, sqlbuilder.newPostfixOpExpression, alloc]
  have ops : ∀ op : String,
      resultOperator ((boolParentOf h a).map
        (fun parent => sqlbuilder.newPostifxBoolExpression h parent op)) = some op := by
    intro op
    rw [key op]
    simp [resultOperator]
  refine ⟨⟨key _, key _, key _⟩, ⟨key _, key _, key _⟩, ?_⟩
  simp only [List.map, sqlbuilder.boolInterfaceImpl.IS_TRUE,
    sqlbuilder.boolInterfaceImpl.IS_NOT_TRUE, sqlbuilder.boolInterfaceImpl.IS_FALSE,
    sqlbuilder.boolInterfaceImpl.IS_NOT_FALSE, sqlbuilder.boolInterfaceImpl.IS_UNKNOWN,
    sqlbuilder.boolInterfaceImpl.IS_NOT_UNKNOWN, ops]
  decide

theorem is_operators_build_postfix_nodes_witness :
    ([ sqlbuilder.boolInterfaceImpl.IS_TRUE columns 2,
       sqlbuilder.boolInterfaceImpl.IS_NOT_TRUE columns 2,
       sqlbuilder.boolInterfaceImpl.IS_FALSE columns 2,
       sqlbuilder.boolInterfaceImpl.IS_NOT_FALSE columns 2,
       sqlbuilder.boolInterfaceImpl.IS_UNKNOWN columns 2,
       sqlbuilder.boolInterfaceImpl.IS_NOT_UNKNOWN columns 2 ].map resultOperator).Nodup ∧
    sqlbuilder.boolInterfaceImpl.IS_NOT_UNKNOWN columns 2 = some
      (columns ++ [{ payload := .postfixOpExpression 2 "IS NOT UNKNOWN",
                     expressionParent := some 4, boolParent := some 4,
                     rangeParent := none }], 4) :=
  ⟨(is_operators_build_postfix_nodes columns 2 (by decide)).2.2,
   (is_operators_build_postfix_nodes columns 2 (by decide)).2.1.2.2⟩

/-- C6: every building operation of the Bool surface, called on a receiver
that embeds `boolInterfaceImpl`, and every building operation of the Range
surface, called on a receiver that embeds `rangeInterfaceImpl`, returns a
pointer to an object the call allocated and leaves every object of the old
heap as it was: payload (operands and operator) and parent pointers of the
receiver, of the argument and of all other objects are the same after the call. -/
theorem building_operations_allocate_and_preserve (ops : Operators) (h : Heap) (a b : Nat) :
    ((boolParentOf h a).isSome →
      Builds h (sqlbuilder.boolInterfaceImpl.AND h a b) ∧
      Builds h (sqlbuilder.boolInterfaceImpl.OR h a b) ∧
      Builds h (sqlbuilder.boolInterfaceImpl.EQ ops h a b) ∧
      Builds h (sqlbuilder.boolInterfaceImpl.NOT_EQ ops h a b) ∧
      Builds h (sqlbuilder.boolInterfaceImpl.IS_DISTINCT_FROM ops h a b) ∧
      Builds h (sqlbuilder.boolInterfaceImpl.IS_NOT_DISTINCT_FROM ops h a b) ∧
      Builds h (sqlbuilder.boolInterfaceImpl.IS_TRUE h a) ∧
      Builds h (sqlbuilder.boolInterfaceImpl.IS_NOT_TRUE h a) ∧
      Builds h (sqlbuilder.boolInterfaceImpl.IS_FALSE h a) ∧
      Builds h (sqlbuilder.boolInterfaceImpl.IS_NOT_FALSE h a) ∧
      Builds h (sqlbuilder.boolInterfaceImpl.IS_UNKNOWN h a) ∧
      Builds h (sqlbuilder.boolInterfaceImpl.IS_NOT_UNKNOWN h a)) ∧
    ((rangeParentOf h a).isSome →
      Builds h (jet.rangeInterfaceImpl.EQ ops h a b) ∧
      Builds h (jet.rangeInterfaceImpl.NOT_EQ ops h a b) ∧
      Builds h (jet.rangeInterfaceImpl.LT ops h a b) ∧
      Builds h (jet.rangeInterfaceImpl.LT_EQ ops h a b) ∧
      Builds h (jet.rangeInterfaceImpl.GT ops h a b) ∧
      Builds h (jet.rangeInterfaceImpl.GT_EQ ops h a b) ∧
      Builds h (jet.rangeInterfaceImpl.CONTAINS ops h a b) ∧
      Builds h (jet.rangeInterfaceImpl.CONTAINS_RANGE ops h a b) ∧
      Builds h (jet.rangeInterfaceImpl.OVERLAP ops h a b) ∧
      Builds h (jet.rangeInterfaceImpl.UNION h a b) ∧
      Builds h (jet.rangeInterfaceImpl.INTERSECTION h a b) ∧
      Builds h (jet.rangeInterfaceImpl.DIFFERENCE h a b)) := by
  constructor
  · intro hs
    obtain ⟨p, hp⟩ := Option.isSome_iff_exists.mp hs
    simp only [sqlbuilder.boolInterfaceImpl.AND, sqlbuilder.boolInterfaceImpl.OR,
      sqlbuilder.boolInterfaceImpl.EQ, sqlbuilder.boolInterfaceImpl.NOT_EQ,
      sqlbuilder.boolInterfaceImpl.IS_DISTINCT_FROM,
      sqlbuilder.boolInterfaceImpl.IS_NOT_DISTINCT_FROM,
      sqlbuilder.boolInterfaceImpl.IS_TRUE, sqlbuilder.boolInterfaceImpl.IS_NOT_TRUE,
      sqlbuilder.boolInterfaceImpl.IS_FALSE, sqlbuilder.boolInterfaceImpl.IS_NOT_FALSE,
      sqlbuilder.boolInterfaceImpl.IS_UNKNOWN, sqlbuilder.boolInterfaceImpl.IS_NOT_UNKNOWN,
      hp, Option.map]
    exact ⟨builds_alloc _ _, builds_alloc _ _, builds_alloc _ _, builds_alloc _ _,
      builds_alloc _ _, builds_alloc _ _, builds_alloc _ _, builds_alloc _ _,
      builds_alloc _ _, builds_alloc _ _, builds_alloc _ _, builds_alloc _ _⟩
  · intro hs
    obtain ⟨p, hp⟩ := Option.isSome_iff_exists.mp hs
    simp only [jet.rangeInterfaceImpl.EQ, jet.rangeInterfaceImpl.NOT_EQ,
      jet.rangeInterfaceImpl.LT, jet.rangeInterfaceImpl.LT_EQ, jet.rangeInterfaceImpl.GT,
      jet.rangeInterfaceImpl.GT_EQ, jet.rangeInterfaceImpl.CONTAINS,
      jet.rangeInterfaceImpl.CONTAINS_RANGE, jet.rangeInterfaceImpl.OVERLAP,
      jet.rangeInterfaceImpl.UNION, jet.rangeInterfaceImpl.INTERSECTION,
      jet.rangeInterfaceImpl.DIFFERENCE, hp, Option.map]
    have w : ∀ op : String, Builds h (some (jet.RangeExp (jet.binaryOperator h p b op).1
        (jet.binaryOperator h p b op).2)) := fun op =>
      builds_alloc_alloc h _ (fun n => Object.mk (.wrapped h.length) none none (some n))
    exact ⟨builds_alloc _ _, builds_alloc _ _, builds_alloc _ _, builds_alloc _ _,
      builds_alloc _ _, builds_alloc _ _, builds_alloc _ _, builds_alloc _ _,
      builds_alloc _ _, w _, w _, w _⟩

theorem building_operations_allocate_and_preserve_witness :
    Builds columns (sqlbuilder.boolInterfaceImpl.AND columns 2 3) ∧
    Builds columns (jet.rangeInterfaceImpl.UNION columns 0 1) ∧
    (sqlbuilder.boolInterfaceImpl.AND columns 2 3).map (fun res => res.1[2]?) =
      some columns[2]? ∧
    (jet.rangeInterfaceImpl.UNION columns 0 1).map (fun res => (res.1[0]?, res.1[1]?)) =
      some (columns[0]?, columns[1]?) :=
  ⟨((building_operations_allocate_and_preserve ⟨"=", "!=", "IS DISTINCT FROM",
      "IS NOT DISTINCT FROM", "<", "<=", ">", ">=", "@>", "&&"⟩ columns 2 3).1 (by decide)).1,
   ((building_operations_allocate_and_preserve ⟨"=", "!=", "IS DISTINCT FROM",
      "IS NOT DISTINCT FROM", "<", "<=", ">", ">=", "@>", "&&"⟩ columns 0 1).2
      (by decide)).2.2.2.2.2.2.2.2.2.1,
   by decide, by decide⟩

/-! ## Generated code -/

/-- C7: for a handle `T` of the generated type (it carries the schema, name
and columns of its metadata) and alias strings `x`, `y`, `T.AS(x)` returns a
handle allocated by the call, aliased `x`, with the schema, table name and
column lists of `T`, and leaves `T` and every other existing handle unchanged;
`T.AS(x).AS(y)` is a handle aliased `y` with the same content as `T.AS(y)`,
and it leaves both `T` and `T.AS(x)` unchanged. -/
theorem AS_is_pure (m : template.TableInfo) (h : template.Handles) (T : Nat)
    (t : template.GoStruct) (x y : String)
    (hT : h[T]? = some t) (hg : template.GeneratedFor m t) :
    ∃ tx ty,
      (template.AS m h T x).1[(template.AS m h T x).2]? = some tx ∧
      h.length ≤ (template.AS m h T x).2 ∧
      tx.Table.tableAlias = some x ∧
      tx.Table.schemaName = t.Table.schemaName ∧
      tx.Table.name = t.Table.name ∧
      tx.Table.columns = t.Table.columns ∧
      tx.Columns = t.Columns ∧
      tx.AllColumns = t.AllColumns ∧
      tx.MutableColumns = t.MutableColumns ∧
      (∀ i : Nat, i < h.length → (template.AS m h T x).1[i]? = h[i]?) ∧
      (template.AS m h T x).1[T]? = some t ∧
      (template.AS m (template.AS m h T x).1 (template.AS m h T x).2 y).1[
        (template.AS m (template.AS m h T x).1 (template.AS m h T x).2 y).2]? = some ty ∧
      ty.Table.tableAlias = some y ∧
      (template.AS m h T y).1[(template.AS m h T y).2]? = some ty ∧
      (template.AS m (template.AS m h T x).1 (template.AS m h T x).2 y).1[T]? = some t ∧
      (template.AS m (template.AS m h T x).1 (template.AS m h T x).2 y).1[
        (template.AS m h T x).2]? = some tx := by
  obtain ⟨g1, g2, g3, g4, g5, g6⟩ := hg
  have hTl : T < h.length := (List.getElem?_eq_some_iff.mp hT).1
  simp only [template.AS_eq]
  refine ⟨template.GoStruct.mk ⟨m.SchemaName, m.Name, some x, template.columnList m.Columns⟩
      (template.columnList m.Columns) (template.columnList m.Columns)
      (template.columnList m.MutableColumns),
    template.GoStruct.mk ⟨m.SchemaName, m.Name, some y, template.columnList m.Columns⟩
      (template.columnList m.Columns) (template.columnList m.Columns)
      (template.columnList m.MutableColumns),
    by simp, Nat.le_refl _, rfl, g1.symm, g2.symm, g3.symm, g4.symm, g5.symm,
    g6.symm, fun i hi => List.getElem?_append_left hi, ?_, ?_, rfl, by simp, ?_, ?_⟩
  · rw [List.getElem?_append_left hTl]; exact hT
  · rw [List.getElem?_append_right (Nat.le_refl _)]; simp
  · rw [List.append_assoc, List.getElem?_append_left hTl]; exact hT
  · rw [List.append_assoc, List.getElem?_append_right (Nat.le_refl _)]; simp

theorem AS_is_pure_witness :
    ∃ tx ty,
      (template.AS actorInfo (template.newGoStruct actorInfo []).1 0 "x").1[
        (template.AS actorInfo (template.newGoStruct actorInfo []).1 0 "x").2]?
        = some tx ∧
      tx.Table.tableAlias = some "x" ∧ tx.Table.name = "actor" ∧
      (template.AS actorInfo
        (template.AS actorInfo (template.newGoStruct actorInfo []).1 0 "x").1
        (template.AS actorInfo (template.newGoStruct actorInfo []).1 0 "x").2
        "y").1[1]? = some tx ∧
      (template.AS actorInfo
        (template.AS actorInfo (template.newGoStruct actorInfo []).1 0 "x").1
        (template.AS actorInfo (template.newGoStruct actorInfo []).1 0 "x").2
        "y").1[2]? = some ty ∧
      ty.Table.tableAlias = some "y" := by
  obtain ⟨tx, ty, h1, _, h3, _, h5, _, _, _, _, _, _, h12, h13, _, _, h16⟩ :=
    AS_is_pure actorInfo (template.newGoStruct actorInfo []).1 0
      (template.newGoStruct actorInfo []).1[0] "x" "y" rfl
      ⟨rfl, rfl, rfl, rfl, rfl, rfl⟩
  exact ⟨tx, ty, h1, h3, h5, h16, h12, h13⟩

/-- C8: for every enum metadata with value list `V`, receiver `e` and raw value
`x`, the generated `Scan(x)` returns no error exactly when `x` is a string that
is a member of `V`; when it returns an error (a non-string `x`, or a string
outside `V`) the receiver is unchanged. -/
theorem Scan_accepts_exactly_the_values (goName : String) (m : enumModel.EnumInfo) (e : String)
    (x : enumModel.Value) :
    ((enumModel.Scan goName m e x).2 = none ↔ ∃ v, x = .string v ∧ v ∈ m.Values) ∧
    ((∀ v, x ≠ .string v) →
      enumModel.Scan goName m e x = (e, some ("jet: Invalid data for " ++ goName ++ " enum"))) ∧
    (∀ v, x = .string v → v ∉ m.Values →
      enumModel.Scan goName m e x =
        (e, some ("jet: Inavlid data " ++ v ++ "for " ++ goName ++ " enum"))) ∧
    ((enumModel.Scan goName m e x).2 ≠ none → (enumModel.Scan goName m e x).1 = e) := by
  cases x with
  | string v =>
    by_cases hv : v ∈ m.Values
    · have hs := scanSwitch_eq_some m.Values v hv
      refine ⟨?_, fun hne => absurd rfl (hne v), ?_, ?_⟩
      · simp [enumModel.Scan, hs, hv]
      · intro v' hv' hn
        cases hv'
        exact absurd hv hn
      · simp [enumModel.Scan, hs]
    · have hs := scanSwitch_eq_none m.Values v hv
      refine ⟨?_, fun hne => absurd rfl (hne v), ?_, ?_⟩
      · simp [enumModel.Scan, hs, hv]
      · intro v' hv' _
        cases hv'
        simp [enumModel.Scan, hs]
      · simp [enumModel.Scan, hs]
  | nil => simp [enumModel.Scan]
  | int64 v => simp [enumModel.Scan]
  | float64 v => simp [enumModel.Scan]
  | bool v => simp [enumModel.Scan]
  | bytes v => simp [enumModel.Scan]
  | time v => simp [enumModel.Scan]

/-- C9: for every declared value `v` of a generated enum type, scanning the raw
string `v` returns no error and sets the receiver to the constant declared for
`v`, and `String()` of the receiver then returns `v`. -/
theorem Scan_then_String_is_identity (goName : String) (m : enumModel.EnumInfo) (e v : String)
    (hv : v ∈ m.Values) :
    enumModel.Scan goName m e (.string v) = (enumModel.enumConst v, none) ∧
    enumModel.String (enumModel.Scan goName m e (.string v)).1 = v := by
  have hs := scanSwitch_eq_some m.Values v hv
  simp [enumModel.Scan, hs, enumModel.String, enumModel.enumConst]

theorem Scan_then_String_is_identity_witness :
    enumModel.Scan "MpaaRating" mpaaRating "G" (.string "PG-13") =
      (enumModel.enumConst "PG-13", none) ∧
    enumModel.String
      (enumModel.Scan "MpaaRating" mpaaRating "G" (.string "PG-13")).1 = "PG-13" :=
  Scan_then_String_is_identity "MpaaRating" mpaaRating "G" "PG-13" (by decide)

/-! ## Destination check -/

/-- The destination check on the destinations of `TestScanToInvalidDestination`
and `TestScanToValidDestination`, in the order of the tests. -/
theorem checkDestination_on_the_tests :
    qrm.checkDestination .nil = some "jet: destination is nil" ∧
    qrm.checkDestination (.value .struct) =
      some "jet: destination has to be a pointer to slice or pointer to struct" ∧
    qrm.checkDestination (.value (.slice .struct)) =
      some "jet: destination has to be a pointer to slice or pointer to struct" ∧
    qrm.checkDestination (.value (.slice (.pointer (.pointer .struct)))) =
      some "jet: destination has to be a pointer to slice or pointer to struct" ∧
    qrm.checkDestination (.value (.pointer .map)) =
      some "jet: destination has to be a pointer to slice or pointer to struct" ∧
    qrm.checkDestination (.value (.slice .map)) =
      some "jet: destination has to be a pointer to slice or pointer to struct" ∧
    qrm.checkDestination (.value (.pointer (.slice .map))) =
      some "jet: unsupported slice element type" ∧
    qrm.checkDestination (.value (.pointer (.slice .struct))) = none ∧
    qrm.checkDestination (.value (.pointer (.slice (.pointer .struct)))) = none ∧
    qrm.checkDestination (.value (.pointer (.slice .scalar))) = none ∧
    qrm.checkDestination (.value (.pointer (.slice (.pointer .scalar)))) = none ∧
    qrm.checkDestination (.value (.pointer .struct)) = none := by
  decide

/-- C10: the destination check accepts a destination exactly when it is a
pointer to a struct or a pointer to a slice of structs, of pointers to structs,
of scalars or of pointers to scalars; it refuses `nil` with "jet: destination
is nil", a value that is no pointer and a pointer to anything but a struct or a
slice with "jet: destination has to be a pointer to slice or pointer to
struct", and a pointer to a slice of any other element type, such as maps,
with "jet: unsupported slice element type". -/
theorem checkDestination_accepts_iff (dest : qrm.Destination) :
    (qrm.checkDestination dest = none ↔ qrm.Accepted dest) ∧
    (dest = .nil → qrm.checkDestination dest = some "jet: destination is nil") ∧
    (∀ t, dest = .value t → (∀ e, t ≠ .pointer e) →
      qrm.checkDestination dest =
        some "jet: destination has to be a pointer to slice or pointer to struct") ∧
    (∀ e, dest = .value (.pointer e) → e ≠ .struct → (∀ x, e ≠ .slice x) →
      qrm.checkDestination dest =
        some "jet: destination has to be a pointer to slice or pointer to struct") ∧
    (∀ x, dest = .value (.pointer (.slice x)) → ¬ qrm.Accepted dest →
      qrm.checkDestination dest = some "jet: unsupported slice element type") ∧
    (dest = .value (.pointer (.slice .map)) →
      qrm.checkDestination dest = some "jet: unsupported slice element type") := by
  cases dest with
  | nil => simp [qrm.checkDestination, qrm.Accepted]
  | value t =>
    cases t with
    | pointer e =>
      cases e with
      | slice x =>
        cases x with
        | pointer z =>
          cases z <;> simp [qrm.checkDestination, qrm.supportedSliceElem, qrm.Accepted]
        | _ => simp [qrm.checkDestination, qrm.supportedSliceElem, qrm.Accepted]
      | _ => simp [qrm.checkDestination, qrm.Accepted]
    | _ => simp [qrm.checkDestination, qrm.Accepted]

/-! ## Range comparisons and the parent pointer -/

/-- C17: for a range expression `a` (its parent pointer is itself) and an
argument `b`, each boolean-valued Range operation returns the node its helper
builds over `(a, b)`: `EQ` gives `Eq(a, b)`, `NOT_EQ` gives `NotEq(a, b)`, `LT`
gives `Lt(a, b)`, `LT_EQ` gives `LtEq(a, b)`, `GT` gives `Gt(a, b)`, `GT_EQ`
gives `GtEq(a, b)`, `OVERLAP` gives `Overlap(a, b)`, and `CONTAINS` and
`CONTAINS_RANGE` both give `Contains(a, b)`, the same node with the same
operator; each node has `a` as left and `b` as right operand. -/
theorem range_comparisons_build_named_nodes (ops : Operators) (h : Heap) (a b : Nat)
    (ha : rangeParentOf h a = some a) :
    jet.rangeInterfaceImpl.EQ ops h a b = some (jet.Eq ops h a b) ∧
    jet.rangeInterfaceImpl.NOT_EQ ops h a b = some (jet.NotEq ops h a b) ∧
    jet.rangeInterfaceImpl.LT ops h a b = some (jet.Lt ops h a b) ∧
    jet.rangeInterfaceImpl.LT_EQ ops h a b = some (jet.LtEq ops h a b) ∧
    jet.rangeInterfaceImpl.GT ops h a b = some (jet.Gt ops h a b) ∧
    jet.rangeInterfaceImpl.GT_EQ ops h a b = some (jet.GtEq ops h a b) ∧
    jet.rangeInterfaceImpl.OVERLAP ops h a b = some (jet.Overlap ops h a b) ∧
    jet.rangeInterfaceImpl.CONTAINS ops h a b = some (jet.Contains ops h a b) ∧
    jet.rangeInterfaceImpl.CONTAINS_RANGE ops h a b = some (jet.Contains ops h a b) ∧
    jet.rangeInterfaceImpl.CONTAINS ops h a b = jet.rangeInterfaceImpl.CONTAINS_RANGE ops h a b ∧
    ∀ f ∈ [jet.Eq, jet.NotEq, jet.Lt, jet.LtEq, jet.Gt, jet.GtEq, jet.Overlap, jet.Contains],
      ∃ operator, (f ops h a b).1[(f ops h a b).2]? = some
        { payload := .binaryOpExpression a b operator, expressionParent := some h.length,
          boolParent := some h.length, rangeParent := none } := by
  refine ⟨?_, ?_, ?_, ?_, ?_, ?_, ?_, ?_, ?_, ?_, ?_⟩
  · simp [jet.rangeInterfaceImpl.EQ, ha]
  · simp [jet.rangeInterfaceImpl.NOT_EQ, ha]
  · simp [jet.rangeInterfaceImpl.LT, ha]
  · simp [jet.rangeInterfaceImpl.LT_EQ, ha]
  · simp [jet.rangeInterfaceImpl.GT, ha]
  · simp [jet.rangeInterfaceImpl.GT_EQ, ha]
  · simp [jet.rangeInterfaceImpl.OVERLAP, ha]
  · simp [jet.rangeInterfaceImpl.CONTAINS, ha]
  · simp [jet.rangeInterfaceImpl.CONTAINS_RANGE, ha]
  · simp [jet.rangeInterfaceImpl.CONTAINS, jet.rangeInterfaceImpl.CONTAINS_RANGE]
  · intro f hf
    simp only [List.mem_cons, List.mem_singleton, List.not_mem_nil, or_false] at hf
    rcases hf with rfl | rfl | rfl | rfl | rfl | rfl | rfl | rfl
    · exact ⟨ops.eq, by simp [jet.Eq, jet.binaryBoolOperator, alloc]⟩
    · exact ⟨ops.notEq, by simp [jet.NotEq, jet.binaryBoolOperator, alloc]⟩
    · exact ⟨ops.lt, by simp [jet.Lt, jet.binaryBoolOperator, alloc]⟩
    · exact ⟨ops.ltEq, by simp [jet.LtEq, jet.binaryBoolOperator, alloc]⟩
    · exact ⟨ops.gt, by simp [jet.Gt, jet.binaryBoolOperator, alloc]⟩
    · exact ⟨ops.gtEq, by simp [jet.GtEq, jet.binaryBoolOperator, alloc]⟩
    · exact ⟨ops.overlap, by simp [jet.Overlap, jet.binaryBoolOperator, alloc]⟩
    · exact ⟨ops.contains, by simp [jet.Contains, jet.binaryBoolOperator, alloc]⟩

theorem range_comparisons_build_named_nodes_witness :
    jet.rangeInterfaceImpl.LT postgresOperators columns 0 1 = some
      (columns ++ [{ payload := .binaryOpExpression 0 1 "<", expressionParent := some 4,
                     boolParent := some 4, rangeParent := none }], 4) ∧
    jet.rangeInterfaceImpl.CONTAINS postgresOperators columns 0 1 =
      jet.rangeInterfaceImpl.CONTAINS_RANGE postgresOperators columns 0 1 :=
  ⟨(range_comparisons_build_named_nodes postgresOperators columns 0 1 (by decide)).2.2.1,
   (range_comparisons_build_named_nodes postgresOperators columns 0 1
      (by decide)).2.2.2.2.2.2.2.2.2.1⟩

/-- C18: every node a Bool or Range constructor returns has the parent pointer
of each implementation it embeds set to the returned node itself; so for a
boolean expression `a` (its own parent), `a.AND(b).OR(c)` is the "OR" node
whose left operand is the "AND" node of `a` and `b` and whose right operand is
`c`, and for a range expression `r` (its own parent), `r.UNION(b).INTERSECTION(c)`
is the wrapper around the `*` node over the wrapped `Add(r, b)` and `c`. -/
theorem constructors_set_parent_to_self (h : Heap) (a r b c lhs rhs e : Nat) (op : String)
    (ha : boolParentOf h a = some a) (hr : rangeParentOf h r = some r) :
    (boolParentOf (sqlbuilder.newBinaryBoolExpression h lhs rhs op).1
        (sqlbuilder.newBinaryBoolExpression h lhs rhs op).2 =
        some (sqlbuilder.newBinaryBoolExpression h lhs rhs op).2 ∧
      expressionParentOf (sqlbuilder.newBinaryBoolExpression h lhs rhs op).1
        (sqlbuilder.newBinaryBoolExpression h lhs rhs op).2 =
        some (sqlbuilder.newBinaryBoolExpression h lhs rhs op).2) ∧
    (boolParentOf (sqlbuilder.newPrefixBoolExpression h e op).1
        (sqlbuilder.newPrefixBoolExpression h e op).2 =
        some (sqlbuilder.newPrefixBoolExpression h e op).2 ∧
      expressionParentOf (sqlbuilder.newPrefixBoolExpression h e op).1
        (sqlbuilder.newPrefixBoolExpression h e op).2 =
        some (sqlbuilder.newPrefixBoolExpression h e op).2) ∧
    (boolParentOf (sqlbuilder.newPostifxBoolExpression h e op).1
        (sqlbuilder.newPostifxBoolExpression h e op).2 =
        some (sqlbuilder.newPostifxBoolExpression h e op).2 ∧
      expressionParentOf (sqlbuilder.newPostifxBoolExpression h e op).1
        (sqlbuilder.newPostifxBoolExpression h e op).2 =
        some (sqlbuilder.newPostifxBoolExpression h e op).2) ∧
    boolParentOf (sqlbuilder.newBoolExpressionWrap h e).1 (sqlbuilder.newBoolExpressionWrap h e).2 =
      some (sqlbuilder.newBoolExpressionWrap h e).2 ∧
    rangeParentOf (jet.newRangeExpressionWrap h e).1 (jet.newRangeExpressionWrap h e).2 =
      some (jet.newRangeExpressionWrap h e).2 ∧
    (sqlbuilder.boolInterfaceImpl.AND h a b).bind
        (fun ab => sqlbuilder.boolInterfaceImpl.OR ab.1 ab.2 c) = some
      (h ++ [{ payload := .binaryOpExpression a b "AND", expressionParent := some h.length,
               boolParent := some h.length, rangeParent := none },
             { payload := .binaryOpExpression h.length c "OR",
               expressionParent := some (h.length + 1),
               boolParent := some (h.length + 1), rangeParent := none }], h.length + 1) ∧
    (jet.rangeInterfaceImpl.UNION h r b).bind
        (fun rb => jet.rangeInterfaceImpl.INTERSECTION rb.1 rb.2 c) = some
      (h ++ [{ payload := .binaryOpExpression r b "+", expressionParent := some h.length,
               boolParent := none, rangeParent := none },
             { payload := .wrapped h.length, expressionParent := none,
               boolParent := none, rangeParent := some (h.length + 1) },
             { payload := .binaryOpExpression (h.length + 1) c "*",
               expressionParent := some (h.length + 2),
               boolParent := none, rangeParent := none },
             { payload := .wrapped (h.length + 2), expressionParent := none,
               boolParent := none, rangeParent := some (h.length + 3) }], h.length + 3) := by
  refine ⟨⟨?_, ?_⟩, ⟨?_, ?_⟩, ⟨?_, ?_⟩, ?_, ?_, ?_, ?_⟩
  · simp [boolParentOf, sqlbuilder.newBinaryBoolExpression, alloc]
  · simp [expressionParentOf, sqlbuilder.newBinaryBoolExpression, alloc]
  · simp [boolParentOf, sqlbuilder.newPrefixBoolExpression, alloc]
  · simp [expressionParentOf, sqlbuilder.newPrefixBoolExpression, alloc]
  · simp [boolParentOf, sqlbuilder.newPostifxBoolExpression, alloc]
  · simp [expressionParentOf, sqlbuilder.newPostifxBoolExpression, alloc]
  · simp [boolParentOf, sqlbuilder.newBoolExpressionWrap, alloc]
  · simp [rangeParentOf, jet.newRangeExpressionWrap, alloc]
  · have h1 : sqlbuilder.boolInterfaceImpl.AND h a b = some
        (h ++ [{ payload := .binaryOpExpression a b "AND", expressionParent := some h.length,
                 boolParent := some h.length, rangeParent := none }], h.length) := by
      simp [sqlbuilder.boolInterfaceImpl.AND, ha, sqlbuilder.newBinaryBoolExpression,
        sqlbuilder.newBinaryExpression, alloc]
    rw [h1, Option.some_bind]
    simp [sqlbuilder.boolInterfaceImpl.OR, boolParentOf, sqlbuilder.newBinaryBoolExpression,
      sqlbuilder.newBinaryExpression, alloc]
  · have h1 : jet.rangeInterfaceImpl.UNION h r b = some
        (h ++ [{ payload := .binaryOpExpression r b "+", expressionParent := some h.length,
                 boolParent := none, rangeParent := none },
               { payload := .wrapped h.length, expressionParent := none,
                 boolParent := none, rangeParent := some (h.length + 1) }], h.length + 1) := by
      simp [jet.rangeInterfaceImpl.UNION, hr, jet.Add, jet.binaryOperator, jet.RangeExp,
        jet.newRangeExpressionWrap, alloc]
    have hp : rangeParentOf
        (h ++ [{ payload := .binaryOpExpression r b "+", expressionParent := some h.length,
                 boolParent := none, rangeParent := none },
               { payload := .wrapped h.length, expressionParent := none,
                 boolParent := none, rangeParent := some (h.length + 1) }]) (h.length + 1) =
        some (h.length + 1) := by
      unfold rangeParentOf
      rw [List.getElem?_append_right (Nat.le_succ _)]
      simp
    rw [h1, Option.some_bind]
    simp [jet.rangeInterfaceImpl.INTERSECTION, hp, jet.Mul, jet.binaryOperator,
      jet.RangeExp, jet.newRangeExpressionWrap, alloc]

theorem constructors_set_parent_to_self_witness :
    (sqlbuilder.boolInterfaceImpl.AND columns 2 3).bind
        (fun ab => sqlbuilder.boolInterfaceImpl.OR ab.1 ab.2 2) = some
      (columns ++ [{ payload := .binaryOpExpression 2 3 "AND", expressionParent := some 4,
                     boolParent := some 4, rangeParent := none },
                   { payload := .binaryOpExpression 4 2 "OR", expressionParent := some 5,
                     boolParent := some 5, rangeParent := none }], 5) ∧
    ((jet.rangeInterfaceImpl.UNION columns 0 1).bind
        (fun rb => jet.rangeInterfaceImpl.INTERSECTION rb.1 rb.2 1)).map Prod.snd = some 7 :=
  ⟨(constructors_set_parent_to_self columns 2 0 3 2 0 0 0 "" (by decide) (by decide)).2.2.2.2.2.1,
   by decide⟩

/-! ## The query result mapper -/

theorem setFields_ok (fs : List qrm.ColumnField) (row : qrm.Row)
    (h : ∀ f ∈ fs, qrm.fieldOk f row = true) :
    qrm.setFields fs row = .ok (qrm.storedFields fs row) := by
  induction fs with
  | nil => rfl
  | cons f fs ih =>
    have hf := h f (List.mem_cons_self _ _)
    have ih' := ih (fun g hg => h g (List.mem_cons_of_mem _ hg))
    unfold qrm.fieldOk at hf
    cases hc : qrm.cell row f with
    | none => simp [qrm.setFields, qrm.setField, hc, ih', qrm.storedFields]
    | some v =>
      rw [hc] at hf
      have hf' : qrm.accepts v.kind f.target = true := hf
      simp [qrm.setFields, qrm.setField, hc, hf', ih', qrm.storedFields]

theorem setFields_eq_stored (fs : List qrm.ColumnField) (row : qrm.Row) :
    ∀ vals, qrm.setFields fs row = .ok vals → vals = qrm.storedFields fs row := by
  induction fs with
  | nil => intro vals h; simp [qrm.setFields] at h; simp [qrm.storedFields, ← h]
  | cons f fs ih =>
    intro vals h
    simp only [qrm.setFields] at h
    cases hs : qrm.setField f row with
    | error e => rw [hs] at h; cases h
    | ok v =>
      rw [hs] at h
      cases hr : qrm.setFields fs row with
      | error e => rw [hr] at h; cases h
      | ok vs =>
        rw [hr] at h
        cases h
        have e1 := ih vs hr
        have e2 : v = (qrm.cell row f).map fun w => qrm.convert w f.target := by
          unfold qrm.setField at hs
          cases hc : qrm.cell row f with
          | none => rw [hc] at hs; cases hs; rfl
          | some w =>
            rw [hc] at hs
            by_cases ha : qrm.accepts w.kind f.target = true
            · simp [ha] at hs; simp [← hs]
            · simp [ha] at hs
        simp [qrm.storedFields, e1, e2]

theorem mapRows_append (g : qrm.Group) (a b : List qrm.Row) :
    ∀ dest, qrm.mapRows g dest (a ++ b) =
      match qrm.mapRows g dest a with
      | .error e => .error e
      | .ok dest' => qrm.mapRows g dest' b := by
  induction a with
  | nil => intro dest; rfl
  | cons r a ih =>
    intro dest
    simp only [List.cons_append, qrm.mapRows]
    cases qrm.mapRow g dest r with
    | error e => rfl
    | ok d => exact ih d

theorem mapRow_eq (fields : List qrm.ColumnField) (children : qrm.Children)
    (dest : List qrm.Instance) (row : qrm.Row) :
    qrm.mapRow (.mk fields children) dest row =
      if (qrm.Group.mk fields children).present row = false then .ok dest
      else
        match qrm.current dest (qrm.groupKey fields row) with
        | some (vals, kids) =>
          match qrm.mapChildren children kids row with
          | .error e => .error e
          | .ok kids' => .ok (dest.dropLast ++ [.record (qrm.groupKey fields row) vals kids'])
        | none =>
          match qrm.setFields fields row with
          | .error e => .error e
          | .ok vals =>
            match qrm.mapChildren children [] row with
            | .error e => .error e
            | .ok kids => .ok (dest ++ [.record (qrm.groupKey fields row) vals kids]) := by
  rw [qrm.mapRow, qrm.Group.present]
  simp

theorem current_concat (dest : List qrm.Instance) (k key : List qrm.Cell)
    (vals : List (Option qrm.Val)) (kids : List (List qrm.Instance)) :
    qrm.current (dest ++ [.record k vals kids]) key =
      if k = key then some (vals, kids) else none := by
  simp [qrm.current, List.getLast?_concat]

theorem headD_append_of_ne_nil {α : Type} (l t : List α) (d : α) (h : l ≠ []) :
    (l ++ t).headD d = l.headD d := by
  cases l with
  | nil => exact absurd rfl h
  | cons a l => rfl

theorem headD_mem {α : Type} (l : List α) (d : α) (h : l ≠ []) : l.headD d ∈ l := by
  cases l with
  | nil => exact absurd rfl h
  | cons a l => simp

/-- The row loop at a group whose rows are ordered by the group's key: one
record per run of rows with the same key, when the descent into the children
of a run is described by `kidsOf`. -/
theorem parent_runs (pf : List qrm.ColumnField) (cs : qrm.Children)
    (kidsOf : List qrm.Row → List (List qrm.Instance)) (all : List qrm.Row)
    (rank : List qrm.Cell → Nat)
    (hsort : all.Pairwise (fun a b => rank (qrm.groupKey pf a) ≤ rank (qrm.groupKey pf b)))
    (hinj : ∀ a ∈ all, ∀ b ∈ all, rank (qrm.groupKey pf a) = rank (qrm.groupKey pf b) →
      qrm.groupKey pf a = qrm.groupKey pf b)
    (hp : ∀ r ∈ all, (qrm.Group.mk pf cs).present r = true)
    (hf : ∀ r ∈ all, ∀ f ∈ pf, qrm.fieldOk f r = true)
    (hk0 : ∀ r ∈ all, qrm.mapChildren cs [] r = .ok (kidsOf [r]))
    (hk1 : ∀ run r, run ≠ [] → (run ++ [r]) <:+: all →
      (∀ x ∈ run, qrm.groupKey pf x = qrm.groupKey pf r) →
      qrm.mapChildren cs (kidsOf run) r = .ok (kidsOf (run ++ [r]))) :
    ∀ pre, pre <+: all → ∃ runs, qrm.GroupedInto (qrm.groupKey pf) pre runs ∧
      qrm.mapRows (.mk pf cs) [] pre = .ok (runs.map (qrm.recordOf pf kidsOf)) := by
  intro pre
  induction pre using List.reverseRecOn with
  | nil => intro _; exact ⟨[], ⟨rfl, by simp, by simp⟩, rfl⟩
  | append_singleton pre r ih =>
    intro hpr
    have hpre : pre <+: all := (List.prefix_append pre [r]).trans hpr
    have hr : r ∈ all := hpr.subset (by simp)
    obtain ⟨runs, ⟨hjoin, hruns, hnodup⟩, hmap⟩ := ih hpre
    have hs' := hsort.sublist hpr.sublist
    have hle : ∀ x ∈ pre, rank (qrm.groupKey pf x) ≤ rank (qrm.groupKey pf r) := by
      intro x hx
      exact (List.pairwise_append.mp hs').2.2 x hx r (by simp)
    have hsf := setFields_ok pf r (hf r hr)
    rw [mapRows_append, hmap]
    simp only [qrm.mapRows]
    rw [mapRow_eq]
    simp only [hp r hr, Bool.true_eq_false, if_false]
    rcases List.eq_nil_or_concat runs with hnil | ⟨runs0, run, hcat⟩
    · subst hnil
      have hpn : pre = [] := by simpa using hjoin.symm
      subst hpn
      refine ⟨[[r]], ⟨by simp, ?_, by simp⟩, ?_⟩
      · intro run hrun
        simp only [List.mem_singleton] at hrun
        subst hrun
        simp
      · simp [qrm.current, hsf, hk0 r hr, qrm.recordOf]
    · rw [List.concat_eq_append] at hcat
      subst hcat
      obtain ⟨hne, hconst⟩ := hruns run (by simp)
      have hpe : pre = runs0.flatten ++ run := by
        rw [← hjoin, List.flatten_concat]
      have hrec : List.map (qrm.recordOf pf kidsOf) (runs0 ++ [run]) =
          List.map (qrm.recordOf pf kidsOf) runs0 ++
            [.record (qrm.groupKey pf (run.headD [])) (qrm.storedFields pf (run.headD []))
              (kidsOf run)] := by
        simp [qrm.recordOf]
      rw [hrec, current_concat]
      by_cases hk : qrm.groupKey pf (run.headD []) = qrm.groupKey pf r
      · have hinf : (run ++ [r]) <:+: all := by
          have h1 : (run ++ [r]) <:+ (pre ++ [r]) := by
            rw [hpe, List.append_assoc]
            exact List.suffix_append _ _
          exact h1.isInfix.trans hpr.isInfix
        have hkids := hk1 run r hne hinf (fun x hx => (hconst x hx).trans hk)
        simp only [hk, if_true, hkids, List.dropLast_concat]
        refine ⟨runs0 ++ [run ++ [r]], ⟨?_, ?_, ?_⟩, ?_⟩
        · rw [List.flatten_concat, hpe, List.append_assoc]
        · intro run' hrun'
          rcases List.mem_append.mp hrun' with h0 | h0
          · exact hruns run' (List.mem_append_left _ h0)
          · simp only [List.mem_singleton] at h0
            subst h0
            refine ⟨by simp, ?_⟩
            intro x hx
            rw [headD_append_of_ne_nil run [r] [] hne]
            rcases List.mem_append.mp hx with h1 | h1
            · exact hconst x h1
            · simp only [List.mem_singleton] at h1
              subst h1
              exact hk.symm
        · have : List.map (fun run => qrm.groupKey pf (run.headD [])) (runs0 ++ [run ++ [r]]) =
              List.map (fun run => qrm.groupKey pf (run.headD [])) (runs0 ++ [run]) := by
            rw [List.map_append, List.map_append]
            simp only [List.map_cons, List.map_nil]
            rw [headD_append_of_ne_nil run [r] [] hne]
          rw [this]; exact hnodup
        · rw [List.map_append]
          simp only [List.map_cons, List.map_nil, qrm.recordOf]
          rw [headD_append_of_ne_nil run [r] [] hne, hk]
      · simp only [hk, if_false, hsf, hk0 r hr]
        refine ⟨runs0 ++ [run] ++ [[r]], ⟨?_, ?_, ?_⟩, ?_⟩
        · rw [List.flatten_concat, hjoin]
        · intro run' hrun'
          rcases List.mem_append.mp hrun' with h0 | h0
          · exact hruns run' h0
          · simp only [List.mem_singleton] at h0
            subst h0
            simp
        · rw [List.map_append, List.nodup_append]
          refine ⟨hnodup, by simp, ?_⟩
          intro k hk1' hk2'
          simp only [List.map_cons, List.map_nil, List.mem_singleton, List.headD_cons] at hk2'
          subst hk2'
          obtain ⟨run', hrun', hkey⟩ := List.mem_map.mp hk1'
          have hx' : run'.headD [] ∈ run' := headD_mem run' [] (hruns run' hrun').1
          have hz : run.headD [] ∈ run := headD_mem run [] hne
          have hzpre : run.headD [] ∈ pre := by rw [hpe]; exact List.mem_append_right _ hz
          have hzlt : rank (qrm.groupKey pf (run.headD [])) < rank (qrm.groupKey pf r) := by
            have h1 := hle _ hzpre
            have h2 : rank (qrm.groupKey pf (run.headD [])) ≠ rank (qrm.groupKey pf r) :=
              fun he => hk (hinj _ (hpre.subset hzpre) _ hr he)
            omega
          rcases List.mem_append.mp hrun' with h0 | h0
          · have hxf : run'.headD [] ∈ runs0.flatten :=
              List.mem_flatten.mpr ⟨run', h0, hx'⟩
            have hsp : (runs0.flatten ++ run).Pairwise
                (fun a b => rank (qrm.groupKey pf a) ≤ rank (qrm.groupKey pf b)) := by
              rw [← hpe]; exact hsort.sublist hpre.sublist
            have h3 := (List.pairwise_append.mp hsp).2.2 _ hxf _ hz
            rw [hkey] at h3
            omega
          · simp only [List.mem_singleton] at h0
            subst h0
            exact hk hkey
        · simp [qrm.recordOf]

/-- In a grouping, the run of a key holds exactly the rows that carry the key. -/
theorem groupedInto_filter (key : qrm.Row → List qrm.Cell) :
    ∀ (runs : List (List qrm.Row)),
      (∀ run ∈ runs, run ≠ [] ∧ ∀ x ∈ run, key x = key (run.headD [])) →
      (runs.map fun run => key (run.headD [])).Nodup →
      ∀ run ∈ runs, runs.flatten.filter (fun r => key r = key (run.headD [])) = run := by
  intro runs
  induction runs with
  | nil => intro _ _ run hrun; cases hrun
  | cons a t ih =>
    intro hconst hnodup run hrun
    have hnd := List.nodup_cons.mp hnodup
    have hta : ∀ run' ∈ t, key (run'.headD []) ≠ key (a.headD []) := by
      intro run' h' he
      exact hnd.1 (List.mem_map.mpr ⟨run', h', he⟩)
    rw [List.flatten_cons, List.filter_append]
    rcases List.mem_cons.mp hrun with h0 | h0
    · subst h0
      have h1 : List.filter (fun r => decide (key r = key (run.headD []))) run = run := by
        rw [List.filter_eq_self]
        intro x hx
        simpa using (hconst run (List.mem_cons_self _ _)).2 x hx
      have h2 : List.filter (fun r => decide (key r = key (run.headD []))) t.flatten = [] := by
        rw [List.filter_eq_nil_iff]
        intro x hx
        obtain ⟨run', h', hx'⟩ := List.mem_flatten.mp hx
        have := (hconst run' (List.mem_cons_of_mem _ h')).2 x hx'
        simpa [this] using hta run' h'
      rw [h1, h2, List.append_nil]
    · have h1 : List.filter (fun r => decide (key r = key (run.headD []))) a = [] := by
        rw [List.filter_eq_nil_iff]
        intro x hx
        have := (hconst a (List.mem_cons_self _ _)).2 x hx
        simpa [this] using (hta run h0).symm
      rw [h1, List.nil_append]
      exact ih (fun run' h' => hconst run' (List.mem_cons_of_mem _ h')) hnd.2 run h0

theorem groupedInto_filter_eq {key : qrm.Row → List qrm.Cell} {rows : List qrm.Row}
    {runs : List (List qrm.Row)} (h : qrm.GroupedInto key rows runs) :
    ∀ run ∈ runs, run = rows.filter (fun r => key r = key (run.headD [])) := by
  intro run hrun
  rw [← h.1]
  exact (groupedInto_filter key runs h.2.1 h.2.2 run hrun).symm

/-- The descent into a slice of child records without children of their own,
for a row whose child is present and new. -/
theorem mapChildren_slice_new (cf : List qrm.ColumnField) (name : String)
    (strategy : qrm.Strategy) (hs : strategy = .slice ∨ strategy = .sliceOfPointer)
    (done : List qrm.Instance) (r : qrm.Row)
    (hpres : (qrm.Group.mk cf .nil).present r = true)
    (hconv : ∀ f ∈ cf, qrm.fieldOk f r = true)
    (hnew : qrm.current done (qrm.groupKey cf r) = none) :
    qrm.mapChildren (.cons name strategy (.mk cf .nil) .nil) [done] r =
      .ok [done ++ [qrm.childOf cf r]] := by
  have hsf := setFields_ok cf r hconv
  have hm : qrm.mapRow (.mk cf .nil) done r = .ok (done ++ [qrm.childOf cf r]) := by
    rw [mapRow_eq]
    simp only [hpres, Bool.true_eq_false, if_false, hnew, hsf, qrm.mapChildren, qrm.childOf]
  rcases hs with rfl | rfl
  · simp only [qrm.mapChildren, List.headD_cons, hm, List.tail_cons]
  · simp only [qrm.mapChildren, List.headD_cons, hm, List.tail_cons]

theorem mapChildren_slice_first (cf : List qrm.ColumnField) (name : String)
    (strategy : qrm.Strategy) (hs : strategy = .slice ∨ strategy = .sliceOfPointer)
    (r : qrm.Row)
    (hpres : (qrm.Group.mk cf .nil).present r = true)
    (hconv : ∀ f ∈ cf, qrm.fieldOk f r = true) :
    qrm.mapChildren (.cons name strategy (.mk cf .nil) .nil) [] r =
      .ok [[qrm.childOf cf r]] := by
  have hsf := setFields_ok cf r hconv
  have hm : qrm.mapRow (.mk cf .nil) [] r = .ok ([] ++ [qrm.childOf cf r]) := by
    rw [mapRow_eq]
    simp only [hpres, Bool.true_eq_false, if_false, hsf, qrm.mapChildren, qrm.childOf,
      qrm.current, List.getLast?_nil]
  rcases hs with rfl | rfl
  · simp only [qrm.mapChildren, List.headD_nil, hm, List.tail_nil, List.nil_append]
  · simp only [qrm.mapChildren, List.headD_nil, hm, List.tail_nil, List.nil_append]

/-! ### Parent and child records -/

/-- C12, as amended: for a destination that is a sequence of parent records,
each with a sequence of child records, and a row stream ordered by parent key
in which every row has a non-NULL child column and no two consecutive rows
carry the same parent key and the same child key, the mapper produces one
entry per distinct parent key, in the order of the rows, the entry of a key
built from the first row that carries it, and the children of an entry are
one child record per row carrying its key, in row order; the child lengths sum
to the number of rows. -/
theorem parent_child_grouping (pf cf : List qrm.ColumnField) (name : String)
    (strategy : qrm.Strategy) (rows : List qrm.Row) (rank : List qrm.Cell → Nat)
    (hs : strategy = .slice ∨ strategy = .sliceOfPointer)
    (hsort : rows.Pairwise (fun a b => rank (qrm.groupKey pf a) ≤ rank (qrm.groupKey pf b)))
    (hinj : ∀ a ∈ rows, ∀ b ∈ rows, rank (qrm.groupKey pf a) = rank (qrm.groupKey pf b) →
      qrm.groupKey pf a = qrm.groupKey pf b)
    (hchild : ∀ r ∈ rows, (qrm.Group.mk cf .nil).present r = true)
    (hdistinct : rows.Chain'
      (fun a b => qrm.groupKey pf a = qrm.groupKey pf b → qrm.groupKey cf a ≠ qrm.groupKey cf b))
    (hconv : ∀ r ∈ rows, ∀ f ∈ pf ++ cf, qrm.fieldOk f r = true) :
    ∃ runs, qrm.GroupedInto (qrm.groupKey pf) rows runs ∧
      qrm.scanToSlice (.mk pf (.cons name strategy (.mk cf .nil) .nil)) rows =
        .ok (runs.map (qrm.recordOf pf (fun run => [run.map (qrm.childOf cf)]))) ∧
      (∀ run ∈ runs,
        run = rows.filter (fun r => qrm.groupKey pf r = qrm.groupKey pf (run.headD []))) ∧
      (runs.map List.length).sum = rows.length := by
  have hpar : ∀ r ∈ rows,
      (qrm.Group.mk pf (.cons name strategy (.mk cf .nil) .nil)).present r = true := by
    intro r hr
    have := hchild r hr
    simp only [qrm.Group.present, qrm.Children.present, Bool.or_false] at this ⊢
    simp [this]
  obtain ⟨runs, hg, hmap⟩ := parent_runs pf (.cons name strategy (.mk cf .nil) .nil)
    (fun run => [run.map (qrm.childOf cf)]) rows rank hsort hinj hpar
    (fun r hr f hf => hconv r hr f (List.mem_append_left _ hf))
    (fun r hr => mapChildren_slice_first cf name strategy hs r (hchild r hr)
      (fun f hf => hconv r hr f (List.mem_append_right _ hf)))
    (by
      intro run r hne hinf hkeys
      have hr : r ∈ rows := hinf.subset (by simp)
      obtain ⟨run', prev, hrun⟩ : ∃ run' prev, run = run' ++ [prev] := by
        rcases List.eq_nil_or_concat run with h0 | ⟨L, b, h0⟩
        · exact absurd h0 hne
        · exact ⟨L, b, by rw [h0, List.concat_eq_append]⟩
      subst hrun
      have hpair : [prev, r] <:+: rows := by
        have : [prev, r] <:+ (run' ++ [prev] ++ [r]) := ⟨run', by simp⟩
        exact this.isInfix.trans hinf
      have hne' := List.chain'_pair.mp ( List.Chain'.infix hdistinct hpair)
        (hkeys prev (by simp))
      have hcur : qrm.current (List.map (qrm.childOf cf) (run' ++ [prev]))
          (qrm.groupKey cf r) = none := by
        rw [List.map_append]
        simp only [List.map_cons, List.map_nil, qrm.childOf]
        rw [current_concat]
        simp [hne']
      have := mapChildren_slice_new cf name strategy hs _ r (hchild r hr)
        (fun f hf => hconv r hr f (List.mem_append_right _ hf)) hcur
      rw [this]
      simp)
    rows (List.prefix_refl rows)
  refine ⟨runs, hg, hmap, groupedInto_filter_eq hg, ?_⟩
  rw [← List.length_flatten, hg.1]

theorem parent_child_grouping_witness :
    (∃ runs, qrm.GroupedInto (qrm.groupKey qrm.filmFields) qrm.tenRows runs ∧
      qrm.scanToSlice qrm.filmWithInventories qrm.tenRows =
        .ok (runs.map (qrm.recordOf qrm.filmFields
          (fun run => [run.map (qrm.childOf qrm.inventoryFields)]))) ∧
      (∀ run ∈ runs, run = qrm.tenRows.filter
        (fun r => qrm.groupKey qrm.filmFields r = qrm.groupKey qrm.filmFields (run.headD []))) ∧
      (runs.map List.length).sum = qrm.tenRows.length) ∧
    qrm.childCounts (qrm.scanToSlice qrm.filmWithInventories qrm.tenRows) = [[8], [2]] :=
  ⟨parent_child_grouping qrm.filmFields qrm.inventoryFields "Inventories" .slice qrm.tenRows
      qrm.firstInt (Or.inl rfl) (by decide) (by decide) (by decide)
      (by
        simp only [qrm.tenRows, List.chain'_cons, List.chain'_singleton]
        refine ⟨?_, ?_, ?_, ?_, ?_, ?_, ?_, ?_, ?_, trivial⟩ <;> decide)
      (by decide),
    rfl⟩

/-- C12 as stated fails: two rows with the same parent key and the same child
key give one entry with one child, not one child per row; and a row whose
child columns are all NULL gives an entry without children. -/
theorem duplicate_rows_give_one_child :
    qrm.childCounts (qrm.scanToSlice qrm.filmWithInventories qrm.duplicateRows) = [[1]] ∧
    qrm.duplicateRows.length = 2 ∧
    qrm.childCounts (qrm.scanToSlice qrm.filmWithInventories
      [qrm.filmOnlyRow 3 "Adaptation Holes"]) = [[0]] ∧
    ¬ ∃ runs, qrm.GroupedInto (qrm.groupKey qrm.filmFields) qrm.duplicateRows runs ∧
      qrm.scanToSlice qrm.filmWithInventories qrm.duplicateRows =
        .ok (runs.map (qrm.recordOf qrm.filmFields
          (fun run => [run.map (qrm.childOf qrm.inventoryFields)]))) := by
  refine ⟨rfl, rfl, rfl, ?_⟩
  rintro ⟨runs, ⟨hj, _, _⟩, hm⟩
  have h1 : qrm.childCounts (qrm.scanToSlice qrm.filmWithInventories qrm.duplicateRows) =
      [[1]] := rfl
  rw [hm] at h1
  simp only [qrm.childCounts, List.map_map] at h1
  have hlen : (runs.map List.length).sum = 2 := by
    rw [← List.length_flatten, hj]; rfl
  match runs, h1, hlen with
  | [], h1, _ => simp at h1
  | [a], h1, hlen =>
    simp [qrm.recordOf, qrm.Instance.children] at h1
    simp [h1] at hlen
  | a :: b :: t, h1, _ => simp at h1

/-! ### Slices of scalars -/

theorem appendScalar_ok (c : qrm.ColumnField) (dest : List qrm.Instance) (r : qrm.Row)
    (h : qrm.fieldOk c r = true) :
    qrm.appendScalar c dest r = .ok (dest ++ (qrm.scalarOf c r).toList) := by
  unfold qrm.fieldOk at h
  unfold qrm.appendScalar qrm.scalarOf
  cases hc : qrm.cell r c with
  | none => simp
  | some v =>
    rw [hc] at h
    have h' : qrm.accepts v.kind c.target = true := h
    simp [h']

theorem mapChildren_scalarSlice (c : qrm.ColumnField) (name : String)
    (kids : List (List qrm.Instance)) (r : qrm.Row) (h : qrm.fieldOk c r = true) :
    qrm.mapChildren (.cons name .scalarSlice (.mk [c] .nil) .nil) kids r =
      .ok [kids.headD [] ++ (qrm.scalarOf c r).toList] := by
  simp only [qrm.mapChildren, qrm.appendScalars, appendScalar_ok c _ r h]

/-- C13: for a destination that is a sequence of parent records, each with a
sequence of scalars `IDs` aliased to a column `c`, and a row stream ordered by
parent key (every row with some non-NULL selected column, every value of a
type the mapper converts), the mapper produces one entry per distinct parent
key and the `IDs` of an entry are the values of `c` (its non-NULL cells) over
the rows that carry the entry's key, in row order. -/
theorem scalar_slice_collects_per_parent (pf : List qrm.ColumnField) (c : qrm.ColumnField)
    (name : String) (rows : List qrm.Row) (rank : List qrm.Cell → Nat)
    (hsort : rows.Pairwise (fun a b => rank (qrm.groupKey pf a) ≤ rank (qrm.groupKey pf b)))
    (hinj : ∀ a ∈ rows, ∀ b ∈ rows, rank (qrm.groupKey pf a) = rank (qrm.groupKey pf b) →
      qrm.groupKey pf a = qrm.groupKey pf b)
    (hpres : ∀ r ∈ rows,
      (qrm.Group.mk pf (.cons name .scalarSlice (.mk [c] .nil) .nil)).present r = true)
    (hconv : ∀ r ∈ rows, ∀ f ∈ pf ++ [c], qrm.fieldOk f r = true) :
    ∃ runs, qrm.GroupedInto (qrm.groupKey pf) rows runs ∧
      qrm.scanToSlice (.mk pf (.cons name .scalarSlice (.mk [c] .nil) .nil)) rows =
        .ok (runs.map (qrm.recordOf pf (fun run => [run.filterMap (qrm.scalarOf c)]))) ∧
      ∀ run ∈ runs,
        run = rows.filter (fun r => qrm.groupKey pf r = qrm.groupKey pf (run.headD [])) := by
  have hsingle : ∀ r : qrm.Row, [r].filterMap (qrm.scalarOf c) = (qrm.scalarOf c r).toList := by
    intro r
    cases h : qrm.scalarOf c r <;> simp [List.filterMap_cons, h]
  obtain ⟨runs, hg, hmap⟩ := parent_runs pf (.cons name .scalarSlice (.mk [c] .nil) .nil)
    (fun run => [run.filterMap (qrm.scalarOf c)]) rows rank hsort hinj hpres
    (fun r hr f hf => hconv r hr f (List.mem_append_left _ hf))
    (by
      intro r hr
      rw [mapChildren_scalarSlice c name [] r (hconv r hr c (by simp))]
      dsimp only
      rw [hsingle]
      rfl)
    (by
      intro run r _ hinf _
      have hr : r ∈ rows := hinf.subset (by simp)
      rw [mapChildren_scalarSlice c name _ r (hconv r hr c (by simp))]
      dsimp only
      rw [List.filterMap_append, hsingle]
      rfl)
    rows (List.prefix_refl rows)
  exact ⟨runs, hg, hmap, groupedInto_filter_eq hg⟩

theorem scalar_slice_collects_per_parent_witness :
    (∃ runs, qrm.GroupedInto (qrm.groupKey qrm.filmFields) qrm.tenRows runs ∧
      qrm.scanToSlice qrm.filmWithIDs qrm.tenRows =
        .ok (runs.map (qrm.recordOf qrm.filmFields
          (fun run => [run.filterMap (qrm.scalarOf qrm.inventoryID)]))) ∧
      ∀ run ∈ runs, run = qrm.tenRows.filter
        (fun r => qrm.groupKey qrm.filmFields r = qrm.groupKey qrm.filmFields (run.headD []))) ∧
    (match qrm.scanToSlice qrm.filmWithIDs qrm.tenRows with
      | .ok l => l.map qrm.Instance.children
      | .error _ => []) =
      [[[.scalar ⟨.int32, .int 1⟩, .scalar ⟨.int32, .int 2⟩, .scalar ⟨.int32, .int 3⟩,
         .scalar ⟨.int32, .int 4⟩, .scalar ⟨.int32, .int 5⟩, .scalar ⟨.int32, .int 6⟩,
         .scalar ⟨.int32, .int 7⟩, .scalar ⟨.int32, .int 8⟩]],
       [[.scalar ⟨.int32, .int 9⟩, .scalar ⟨.int32, .int 10⟩]]] :=
  ⟨scalar_slice_collects_per_parent qrm.filmFields qrm.inventoryID "IDs" qrm.tenRows
      qrm.firstInt (by decide) (by decide) (by decide) (by decide),
    rfl⟩

/-! ### Absent groups -/

theorem mapRow_absent (g : qrm.Group) (dest : List qrm.Instance) (row : qrm.Row)
    (h : g.present row = false) : qrm.mapRow g dest row = .ok dest := by
  cases g with
  | mk fields children => rw [mapRow_eq]; simp [h]

theorem mapRow_nil_present (g : qrm.Group) (row : qrm.Row) (l : List qrm.Instance)
    (h : g.present row = true) (hl : qrm.mapRow g [] row = .ok l) :
    ∃ vals kids, l = [.record (g.key row) vals kids] := by
  cases g with
  | mk fields children =>
    rw [mapRow_eq] at hl
    simp only [h, Bool.true_eq_false, if_false, qrm.current, List.getLast?_nil] at hl
    cases hs : qrm.setFields fields row with
    | error e => rw [hs] at hl; cases hl
    | ok vals =>
      rw [hs] at hl
      cases hk : qrm.mapChildren children [] row with
      | error e => rw [hk] at hl; cases hl
      | ok kids =>
        rw [hk] at hl
        cases hl
        exact ⟨vals, kids, rfl⟩

theorem appendScalars_absent (fields : List qrm.ColumnField) (dest : List qrm.Instance)
    (row : qrm.Row) (h : fields.any (fun f => (qrm.cell row f).isSome) = false) :
    qrm.appendScalars fields dest row = .ok dest := by
  induction fields with
  | nil => rfl
  | cons f fs ih =>
    simp only [List.any_cons, Bool.or_eq_false_iff] at h
    have hc : qrm.cell row f = none := by
      cases hc : qrm.cell row f with
      | none => rfl
      | some v => rw [hc] at h; simp at h
    simp only [qrm.appendScalars, qrm.appendScalar, hc]
    exact ih h.2

/-- The child value the descent writes, from nothing, for an absent child
group of any strategy: none. -/
theorem mapChildren_absent_child : ∀ (cs : qrm.Children) (row : qrm.Row)
    (kids : List (List qrm.Instance)) (i : Nat) (name : String) (s : qrm.Strategy)
    (cg : qrm.Group),
    qrm.mapChildren cs [] row = .ok kids → cs.get? i = some (name, s, cg) →
    cg.present row = false → kids.getD i [] = []
  | .nil, _, _, _, _, _, _, _, hget, _ => by simp [qrm.Children.get?] at hget
  | .cons n st g rest, row, kids, i, name, s, cg, hm, hget, habs => by
    have hstep : ∃ child more, kids = child :: more ∧
        qrm.mapChildren rest [] row = .ok more ∧ (g.present row = false → child = []) := by
      cases st with
      | scalarSlice =>
        cases g with
        | mk fields ch =>
          simp only [qrm.mapChildren, List.headD_nil, List.tail_nil] at hm
          cases ha : qrm.appendScalars fields [] row with
          | error e => rw [ha] at hm; cases hm
          | ok child =>
            rw [ha] at hm
            cases hr : qrm.mapChildren rest [] row with
            | error e => rw [hr] at hm; cases hm
            | ok more =>
              rw [hr] at hm
              cases hm
              refine ⟨child, more, rfl, rfl, ?_⟩
              intro hp
              simp only [qrm.Group.present, Bool.or_eq_false_iff] at hp
              rw [appendScalars_absent fields [] row hp.1] at ha
              cases ha; rfl
      | slice =>
        simp only [qrm.mapChildren, List.headD_nil, List.tail_nil] at hm
        cases ha : qrm.mapRow g [] row with
        | error e => rw [ha] at hm; cases hm
        | ok child =>
          rw [ha] at hm
          cases hr : qrm.mapChildren rest [] row with
          | error e => rw [hr] at hm; cases hm
          | ok more =>
            rw [hr] at hm
            cases hm
            refine ⟨child, more, rfl, rfl, ?_⟩
            intro hp
            rw [mapRow_absent g [] row hp] at ha
            cases ha; rfl
      | sliceOfPointer =>
        simp only [qrm.mapChildren, List.headD_nil, List.tail_nil] at hm
        cases ha : qrm.mapRow g [] row with
        | error e => rw [ha] at hm; cases hm
        | ok child =>
          rw [ha] at hm
          cases hr : qrm.mapChildren rest [] row with
          | error e => rw [hr] at hm; cases hm
          | ok more =>
            rw [hr] at hm
            cases hm
            refine ⟨child, more, rfl, rfl, ?_⟩
            intro hp
            rw [mapRow_absent g [] row hp] at ha
            cases ha; rfl
      | embed =>
        simp only [qrm.mapChildren, List.headD_nil, List.tail_nil] at hm
        cases ha : qrm.mapRow g [] row with
        | error e => rw [ha] at hm; cases hm
        | ok child =>
          rw [ha] at hm
          cases hr : qrm.mapChildren rest [] row with
          | error e => rw [hr] at hm; cases hm
          | ok more =>
            rw [hr] at hm
            cases hm
            refine ⟨_, more, rfl, rfl, ?_⟩
            intro hp
            rw [mapRow_absent g [] row hp] at ha
            cases ha; rfl
      | pointer =>
        simp only [qrm.mapChildren, List.headD_nil, List.tail_nil] at hm
        cases ha : qrm.mapRow g [] row with
        | error e => rw [ha] at hm; cases hm
        | ok child =>
          rw [ha] at hm
          cases hr : qrm.mapChildren rest [] row with
          | error e => rw [hr] at hm; cases hm
          | ok more =>
            rw [hr] at hm
            cases hm
            refine ⟨_, more, rfl, rfl, ?_⟩
            intro hp
            rw [mapRow_absent g [] row hp] at ha
            cases ha; rfl
    obtain ⟨child, more, hk, hrest, hchild⟩ := hstep
    subst hk
    cases i with
    | zero =>
      simp only [qrm.Children.get?, Option.some.injEq, Prod.mk.injEq] at hget
      obtain ⟨_, _, rfl⟩ := hget
      simpa using hchild habs
    | succ j =>
      simp only [qrm.Children.get?] at hget
      have := mapChildren_absent_child rest row more j name s cg hrest hget habs
      simpa using this

mutual
/-- A group is present in a row exactly when one of its columns, nested ones
included, is not NULL in the row. -/
theorem present_iff : ∀ (g : qrm.Group) (row : qrm.Row),
    g.present row = true ↔ ∃ f ∈ g.allFields, qrm.cell row f ≠ none
  | .mk fields children, row => by
    have ih := children_present_iff children row
    simp only [qrm.Group.present, qrm.Group.allFields, Bool.or_eq_true, List.any_eq_true,
      List.mem_append, ih]
    constructor
    · rintro (⟨f, hf, hc⟩ | ⟨f, hf, hc⟩)
      · exact ⟨f, Or.inl hf, by intro h; rw [h] at hc; simp at hc⟩
      · exact ⟨f, Or.inr hf, hc⟩
    · rintro ⟨f, hf | hf, hc⟩
      · exact Or.inl ⟨f, hf, by cases h : qrm.cell row f <;> simp_all⟩
      · exact Or.inr ⟨f, hf, hc⟩
theorem children_present_iff : ∀ (cs : qrm.Children) (row : qrm.Row),
    cs.present row = true ↔ ∃ f ∈ cs.allFields, qrm.cell row f ≠ none
  | .nil, row => by simp [qrm.Children.present, qrm.Children.allFields]
  | .cons _ _ g rest, row => by
    have ih1 := present_iff g row
    have ih2 := children_present_iff rest row
    simp only [qrm.Children.present, qrm.Children.allFields, Bool.or_eq_true, List.mem_append,
      ih1, ih2]
    constructor
    · rintro (⟨f, hf, hc⟩ | ⟨f, hf, hc⟩)
      · exact ⟨f, Or.inl hf, hc⟩
      · exact ⟨f, Or.inr hf, hc⟩
    · rintro ⟨f, hf | hf, hc⟩
      · exact Or.inl ⟨f, hf, hc⟩
      · exact Or.inr ⟨f, hf, hc⟩
end

theorem appendScalars_ok (fields : List qrm.ColumnField) (row : qrm.Row)
    (h : ∀ f ∈ fields, qrm.fieldOk f row = true) :
    ∀ dest, ∃ l, qrm.appendScalars fields dest row = .ok l := by
  induction fields with
  | nil => intro dest; exact ⟨dest, rfl⟩
  | cons f fs ih =>
    intro dest
    simp only [qrm.appendScalars, appendScalar_ok f dest row (h f (List.mem_cons_self _ _))]
    exact ih (fun g hg => h g (List.mem_cons_of_mem _ hg)) _

mutual
/-- The row loop does not fail on a row whose values all convert. -/
theorem mapRow_ok : ∀ (g : qrm.Group) (dest : List qrm.Instance) (row : qrm.Row),
    (∀ f ∈ g.allFields, qrm.fieldOk f row = true) → ∃ l, qrm.mapRow g dest row = .ok l
  | .mk fields children, dest, row, h => by
    have hf : ∀ f ∈ fields, qrm.fieldOk f row = true := fun f hf =>
      h f (by simp [qrm.Group.allFields, hf])
    have hc : ∀ f ∈ children.allFields, qrm.fieldOk f row = true := fun f hf =>
      h f (by simp [qrm.Group.allFields, hf])
    rw [mapRow_eq]
    by_cases hp : (qrm.Group.mk fields children).present row = false
    · simp [hp]
    · simp only [hp, if_false]
      cases hcur : qrm.current dest (qrm.groupKey fields row) with
      | some p =>
        obtain ⟨k, hk⟩ := mapChildren_ok children p.2 row hc
        simp [hk]
      | none =>
        obtain ⟨k, hk⟩ := mapChildren_ok children [] row hc
        simp [setFields_ok fields row hf, hk]
theorem mapChildren_ok : ∀ (cs : qrm.Children) (kids : List (List qrm.Instance))
    (row : qrm.Row),
    (∀ f ∈ cs.allFields, qrm.fieldOk f row = true) → ∃ k, qrm.mapChildren cs kids row = .ok k
  | .nil, _, _, _ => ⟨[], rfl⟩
  | .cons _ st (.mk fields ch) rest, kids, row, h => by
    have hg : ∀ f ∈ (qrm.Group.mk fields ch).allFields, qrm.fieldOk f row = true :=
      fun f hf => h f (by simp only [qrm.Children.allFields, List.mem_append]; exact Or.inl hf)
    have hr : ∀ f ∈ rest.allFields, qrm.fieldOk f row = true :=
      fun f hf => h f (by simp only [qrm.Children.allFields, List.mem_append]; exact Or.inr hf)
    obtain ⟨more, hmore⟩ := mapChildren_ok rest kids.tail row hr
    obtain ⟨child, hchild⟩ := mapRow_ok (.mk fields ch) (kids.headD []) row hg
    obtain ⟨sc, hsc⟩ := appendScalars_ok fields row
      (fun f hf => hg f (by simp [qrm.Group.allFields, hf])) (kids.headD [])
    cases st <;> simp only [qrm.mapChildren, hmore, hchild, hsc] <;> exact ⟨_, rfl⟩
end

theorem mapChildren_cons_tail (n : String) (st : qrm.Strategy) (g : qrm.Group)
    (rest : qrm.Children) (row : qrm.Row) (kids : List (List qrm.Instance))
    (hm : qrm.mapChildren (.cons n st g rest) [] row = .ok kids) :
    ∃ child more, kids = child :: more ∧ qrm.mapChildren rest [] row = .ok more := by
  cases st <;> cases g <;>
    simp only [qrm.mapChildren, List.headD_nil, List.tail_nil] at hm <;>
    (split at hm
     · cases hm
     · split at hm
       · cases hm
       · cases hm; exact ⟨_, _, rfl, by assumption⟩)

/-- The child value the descent writes, from nothing, for a pointer child
that is present: one instance. -/
theorem mapChildren_present_pointer : ∀ (cs : qrm.Children) (row : qrm.Row)
    (kids : List (List qrm.Instance)) (i : Nat) (name : String) (cg : qrm.Group),
    qrm.mapChildren cs [] row = .ok kids → cs.get? i = some (name, .pointer, cg) →
    cg.present row = true → ∃ vals sub, kids.getD i [] = [.record (cg.key row) vals sub]
  | .nil, _, _, _, _, _, _, hget, _ => by simp [qrm.Children.get?] at hget
  | .cons n st g rest, row, kids, 0, name, cg, hm, hget, hp => by
    simp only [qrm.Children.get?, Option.some.injEq, Prod.mk.injEq] at hget
    obtain ⟨_, rfl, rfl⟩ := hget
    simp only [qrm.mapChildren, List.headD_nil, List.tail_nil] at hm
    split at hm
    · cases hm
    · rename_i child hchild
      split at hm
      · cases hm
      · cases hm
        obtain ⟨vals, sub, hl⟩ := mapRow_nil_present g row child hp hchild
        exact ⟨vals, sub, by simp [hl, qrm.lastOnly]⟩
  | .cons n st g rest, row, kids, j + 1, name, cg, hm, hget, hp => by
    obtain ⟨child, more, hk, hrest⟩ := mapChildren_cons_tail n st g rest row kids hm
    subst hk
    simp only [qrm.Children.get?] at hget
    obtain ⟨vals, sub, h⟩ := mapChildren_present_pointer rest row more j name cg hrest hget hp
    exact ⟨vals, sub, by simpa using h⟩

/-- C14: for every row whose values convert and every record `{fields; cs}`
the row instantiates, a child group all of whose selected columns, nested
groups included, are NULL in the row (or that has no selected column) is left
unwritten, whatever its strategy: a pointer field stays nil and a sequence
field stays nil; and a pointer child with at least one non-NULL column in the
row is instantiated. -/
theorem pointer_field_nil_iff_absent (fields : List qrm.ColumnField) (cs : qrm.Children)
    (row : qrm.Row)
    (hconf : ∀ f ∈ (qrm.Group.mk fields cs).allFields, qrm.fieldOk f row = true)
    (hpres : (qrm.Group.mk fields cs).present row = true) :
    ∃ kids, qrm.mapRow (.mk fields cs) [] row =
        .ok [.record (qrm.groupKey fields row) (qrm.storedFields fields row) kids] ∧
      ∀ i name s cg, cs.get? i = some (name, s, cg) →
        ((∀ f ∈ cg.allFields, qrm.cell row f = none) → kids.getD i [] = []) ∧
        (s = .pointer → (∃ f ∈ cg.allFields, qrm.cell row f ≠ none) →
          ∃ vals sub, kids.getD i [] = [.record (cg.key row) vals sub]) := by
  have hf : ∀ f ∈ fields, qrm.fieldOk f row = true := fun f hf =>
    hconf f (by simp [qrm.Group.allFields, hf])
  have hc : ∀ f ∈ cs.allFields, qrm.fieldOk f row = true := fun f hf =>
    hconf f (by simp [qrm.Group.allFields, hf])
  obtain ⟨kids, hk⟩ := mapChildren_ok cs [] row hc
  refine ⟨kids, ?_, ?_⟩
  · rw [mapRow_eq]
    simp only [hpres, Bool.true_eq_false, if_false, qrm.current, List.getLast?_nil,
      setFields_ok fields row hf, hk, List.nil_append]
  · intro i name s cg hget
    constructor
    · intro hnull
      have habs : cg.present row = false := by
        cases hp : cg.present row with
        | false => rfl
        | true =>
          obtain ⟨f, hf', hne⟩ := (present_iff cg row).mp hp
          exact absurd (hnull f hf') hne
      exact mapChildren_absent_child cs row kids i name s cg hk hget habs
    · intro hs hex
      subst hs
      exact mapChildren_present_pointer cs row kids i name cg hk hget
        ((present_iff cg row).mpr hex)

theorem pointer_field_nil_iff_absent_witness :
    (∃ kids, qrm.mapRow qrm.filmWithInventoryPointer [] (qrm.filmOnlyRow 3 "Adaptation Holes") =
        .ok [.record (qrm.groupKey qrm.filmFields (qrm.filmOnlyRow 3 "Adaptation Holes"))
          (qrm.storedFields qrm.filmFields (qrm.filmOnlyRow 3 "Adaptation Holes")) kids] ∧
      kids.getD 0 [] = []) ∧
    (qrm.scanToStruct qrm.filmWithInventoryPointer (.record [] [] [])
      [qrm.joinRow 1 "Academy Dinosaur" 1 1]).1.children =
      [[qrm.childOf qrm.inventoryFields (qrm.joinRow 1 "Academy Dinosaur" 1 1)]] := by
  obtain ⟨kids, h1, h2⟩ := pointer_field_nil_iff_absent qrm.filmFields
    (.cons "Inventory" .pointer (.mk qrm.inventoryFields .nil) .nil)
    (qrm.filmOnlyRow 3 "Adaptation Holes") (by decide) (by decide)
  exact ⟨⟨kids, h1, (h2 0 "Inventory" .pointer (.mk qrm.inventoryFields .nil) rfl).1
    (by decide)⟩, rfl⟩

/-! ### Zero rows -/

/-- C11: for zero rows, the scan into a single record returns the no-rows
error and leaves the destination as it was, and the scan into a sequence (of
records or of scalars) returns no error and the empty sequence; the no-rows
error is returned for zero rows only. -/
theorem zero_rows_no_rows_error (g : qrm.Group) (dest : qrm.Instance) (target : qrm.Kind)
    (rows : List qrm.Row) :
    qrm.scanToStruct g dest [] = (dest, some .noRows) ∧
    qrm.scanToSlice g [] = .ok [] ∧
    qrm.scanToScalars target [] [] = .ok [] ∧
    ((qrm.scanToStruct g dest rows).2 = some .noRows ↔ rows = []) := by
  refine ⟨rfl, rfl, rfl, ?_⟩
  cases rows with
  | nil => simp [qrm.scanToStruct]
  | cons r rs =>
    simp only [qrm.scanToStruct, reduceCtorEq, iff_false]
    cases qrm.mapRows g [] (r :: rs) with
    | error e => simp
    | ok l => cases l <;> simp

/-! ### Scalar coercion -/

/-- C16, as amended: a column value is written into a field, and appended to a
slice of scalars, when its type converts to the destination type losslessly
(a smaller integer into a larger one of the same signedness, a type into its
newtype) or goes from an integer into a string; every other value is refused
with a fatal error that names the source and the target type. -/
theorem scalar_write_converts_or_fails (f : qrm.ColumnField) (row : qrm.Row) (v : qrm.Val)
    (dest : List qrm.Instance) (hc : qrm.cell row f = some v) :
    (qrm.accepts v.kind f.target = true →
      qrm.setField f row = .ok (some (qrm.convert v f.target)) ∧
      qrm.appendScalar f dest row = .ok (dest ++ [.scalar (qrm.convert v f.target)])) ∧
    (qrm.accepts v.kind f.target = false →
      qrm.setField f row =
        .error ("jet: can't set " ++ v.kind.name ++ " to " ++ f.target.name) ∧
      qrm.appendScalar f dest row =
        .error ("jet: can't append " ++ v.kind.name ++ " to []" ++ f.target.name ++ " slice")) ∧
    (qrm.lossless v.kind f.target = true → qrm.accepts v.kind f.target = true) ∧
    (qrm.accepts v.kind f.target = true →
      qrm.lossless v.kind f.target = true ∨
      (v.kind.base.integer.isSome = true ∧ f.target.base = .string)) := by
  refine ⟨?_, ?_, ?_, ?_⟩
  · intro h
    simp [qrm.setField, qrm.appendScalar, hc, h]
  · intro h
    simp [qrm.setField, qrm.appendScalar, hc, h]
  · intro h
    simp [qrm.accepts, h]
  · intro h
    simp only [qrm.accepts, Bool.or_eq_true, Bool.and_eq_true, beq_iff_eq] at h
    exact h

theorem scalar_write_converts_or_fails_witness :
    qrm.setField { column := 0, target := .int, primaryKey := false }
        [some ⟨.int32, .int 1⟩] = .ok (some ⟨.int, .int 1⟩) ∧
    qrm.setField { column := 1, target := .bool, primaryKey := false }
        [some ⟨.int32, .int 1⟩, some ⟨.int16, .int 1⟩] =
      .error "jet: can't set int16 to bool" ∧
    qrm.appendScalar { column := 0, target := .bool, primaryKey := false } []
        [some ⟨.int32, .int 1⟩] = .error "jet: can't append int32 to []bool slice" :=
  ⟨((scalar_write_converts_or_fails { column := 0, target := .int, primaryKey := false }
      [some ⟨.int32, .int 1⟩] ⟨.int32, .int 1⟩ [] rfl).1 (by decide)).1,
   ((scalar_write_converts_or_fails { column := 1, target := .bool, primaryKey := false }
      [some ⟨.int32, .int 1⟩, some ⟨.int16, .int 1⟩] ⟨.int16, .int 1⟩ [] rfl).2.1
      (by decide)).1,
   ((scalar_write_converts_or_fails { column := 0, target := .bool, primaryKey := false }
      [some ⟨.int32, .int 1⟩] ⟨.int32, .int 1⟩ [] rfl).2.1 (by decide)).2⟩

/-- C16 as stated fails: the `int16` value of the column `film_id` is written
into a `string` field without error, as in `TestScanToStruct` ("type convert
int32 to int"), although an integer into a string is not a lossless
conversion. -/
theorem int16_into_string_is_written :
    qrm.setField { column := 1, target := .string, primaryKey := false }
        [some ⟨.int32, .int 1⟩, some ⟨.int16, .int 1⟩] = .ok (some ⟨.string, .int 1⟩) ∧
    qrm.lossless .int16 .string = false := by
  exact ⟨rfl, by decide⟩

/-! ### Single-record destinations -/

theorem mapRows_absent (g : qrm.Group) (dest : List qrm.Instance) (pre : List qrm.Row)
    (h : ∀ x ∈ pre, g.present x = false) : qrm.mapRows g dest pre = .ok dest := by
  induction pre with
  | nil => rfl
  | cons x xs ih =>
    simp only [qrm.mapRows, mapRow_absent g dest x (h x (List.mem_cons_self _ _))]
    exact ih (fun y hy => h y (List.mem_cons_of_mem _ hy))

theorem mapRows_ok (g : qrm.Group) (rows : List qrm.Row)
    (h : ∀ x ∈ rows, ∀ f ∈ g.allFields, qrm.fieldOk f x = true) :
    ∀ dest, ∃ l, qrm.mapRows g dest rows = .ok l := by
  induction rows with
  | nil => intro dest; exact ⟨dest, rfl⟩
  | cons x xs ih =>
    intro dest
    obtain ⟨d, hd⟩ := mapRow_ok g dest x (h x (List.mem_cons_self _ _))
    simp only [qrm.mapRows, hd]
    exact ih (fun y hy => h y (List.mem_cons_of_mem _ hy)) d

/-- The first instance: created from the first row in which the group is present. -/
theorem mapRow_nil_created (g : qrm.Group) (row : qrm.Row) (l : List qrm.Instance)
    (h : g.present row = true) (hl : qrm.mapRow g [] row = .ok l) :
    ∃ kids, l = [.record (g.key row) (qrm.storedFields g.fields row) kids] := by
  cases g with
  | mk fields children =>
    rw [mapRow_eq] at hl
    simp only [h, Bool.true_eq_false, if_false, qrm.current, List.getLast?_nil] at hl
    cases hs : qrm.setFields fields row with
    | error e => rw [hs] at hl; cases hl
    | ok vals =>
      rw [hs] at hl
      cases hk : qrm.mapChildren children [] row with
      | error e => rw [hk] at hl; cases hl
      | ok kids =>
        rw [hk] at hl
        cases hl
        rw [setFields_eq_stored fields row vals hs]
        exact ⟨kids, rfl⟩

/-- A row in which the group is absent, or that carries the key of the only
instance, leaves one instance with the same key and fields. -/
theorem mapRow_single_same (g : qrm.Group) (k : List qrm.Cell) (vals : List (Option qrm.Val))
    (kids : List (List qrm.Instance)) (row : qrm.Row) (l : List qrm.Instance)
    (hq : g.present row = false ∨ g.key row = k)
    (hl : qrm.mapRow g [.record k vals kids] row = .ok l) :
    ∃ kids', l = [.record k vals kids'] := by
  cases g with
  | mk fields children =>
    rw [mapRow_eq] at hl
    by_cases hp : (qrm.Group.mk fields children).present row = false
    · simp only [hp, if_true] at hl
      cases hl
      exact ⟨kids, rfl⟩
    · have hk : qrm.groupKey fields row = k := by
        rcases hq with h0 | h0
        · exact absurd h0 hp
        · exact h0
      have hcur : qrm.current [.record k vals kids] (qrm.groupKey fields row) =
          some (vals, kids) := by
        simp [qrm.current, hk]
      simp only [hp, if_false, hcur] at hl
      cases hm : qrm.mapChildren children kids row with
      | error e => rw [hm] at hl; cases hl
      | ok kids' =>
        rw [hm] at hl
        cases hl
        exact ⟨kids', by simp [hk]⟩

/-- A row that carries another key leaves the only instance as it is and
appends a second one. -/
theorem mapRow_single_other (g : qrm.Group) (k : List qrm.Cell) (vals : List (Option qrm.Val))
    (kids : List (List qrm.Instance)) (row : qrm.Row) (l : List qrm.Instance)
    (hp : g.present row = true) (hk : g.key row ≠ k)
    (hl : qrm.mapRow g [.record k vals kids] row = .ok l) :
    ∃ second, l = [.record k vals kids, second] := by
  cases g with
  | mk fields children =>
    rw [mapRow_eq] at hl
    have hk' : ¬ k = qrm.groupKey fields row := fun h => hk h.symm
    have hcur : qrm.current [.record k vals kids] (qrm.groupKey fields row) = none := by
      simp [qrm.current, hk']
    simp only [hp, Bool.true_eq_false, if_false, hcur] at hl
    cases hs : qrm.setFields fields row with
    | error e => rw [hs] at hl; cases hl
    | ok vs =>
      rw [hs] at hl
      cases hm : qrm.mapChildren children [] row with
      | error e => rw [hm] at hl; cases hl
      | ok ks =>
        rw [hm] at hl
        cases hl
        exact ⟨_, rfl⟩

/-- Once there are two instances, no row changes the first. -/
theorem mapRow_keeps_first (g : qrm.Group) (a b : qrm.Instance) (tl : List qrm.Instance)
    (row : qrm.Row) (l : List qrm.Instance)
    (hl : qrm.mapRow g (a :: b :: tl) row = .ok l) :
    ∃ b' tl', l = a :: b' :: tl' := by
  cases g with
  | mk fields children =>
    rw [mapRow_eq] at hl
    have hdrop : ∀ x : qrm.Instance, ∃ b' tl',
        (a :: b :: tl).dropLast ++ [x] = a :: b' :: tl' := by
      intro x
      cases tl with
      | nil => exact ⟨x, [], rfl⟩
      | cons c t => exact ⟨b, (c :: t).dropLast ++ [x], rfl⟩
    split at hl
    · cases hl; exact ⟨b, tl, rfl⟩
    · split at hl
      · split at hl
        · cases hl
        · cases hl; exact hdrop _
      · split at hl
        · cases hl
        · split at hl
          · cases hl
          · cases hl; exact ⟨b, _, rfl⟩

theorem mapRows_keeps_first (g : qrm.Group) (rows : List qrm.Row) :
    ∀ (a b : qrm.Instance) (tl l : List qrm.Instance),
      qrm.mapRows g (a :: b :: tl) rows = .ok l → ∃ b' tl', l = a :: b' :: tl' := by
  induction rows with
  | nil => intro a b tl l h; cases h; exact ⟨b, tl, rfl⟩
  | cons x xs ih =>
    intro a b tl l h
    simp only [qrm.mapRows] at h
    cases hx : qrm.mapRow g (a :: b :: tl) x with
    | error e => rw [hx] at h; cases h
    | ok d =>
      rw [hx] at h
      obtain ⟨b', tl', hd⟩ := mapRow_keeps_first g a b tl x d hx
      subst hd
      exact ih a b' tl' l h

theorem scanToStruct_of_ok (g : qrm.Group) (dest first : qrm.Instance)
    (tl : List qrm.Instance) (rows : List qrm.Row) (hne : rows ≠ [])
    (h : qrm.mapRows g [] rows = .ok (first :: tl)) :
    qrm.scanToStruct g dest rows = (first, none) := by
  cases rows with
  | nil => exact absurd rfl hne
  | cons x xs => simp only [qrm.scanToStruct, h]

/-- From one instance on: the first instance at the end is the one the leading
rows that are absent or carry its key have built. -/
theorem mapRows_first_from_prefix (g : qrm.Group) (k : List qrm.Cell)
    (vals : List (Option qrm.Val)) (post : List qrm.Row) :
    ∀ (kids0 : List (List qrm.Instance)) (l : List qrm.Instance),
      qrm.mapRows g [.record k vals kids0] post = .ok l →
      ∃ kids tl, l = .record k vals kids :: tl ∧
        qrm.mapRows g [.record k vals kids0]
          (post.takeWhile (fun x => !g.present x || decide (g.key x = k))) =
          .ok [.record k vals kids] := by
  induction post with
  | nil =>
    intro kids0 l h
    cases h
    exact ⟨kids0, [], rfl, rfl⟩
  | cons x xs ih =>
    intro kids0 l h
    simp only [qrm.mapRows] at h
    cases hx : qrm.mapRow g [.record k vals kids0] x with
    | error e => rw [hx] at h; cases h
    | ok d =>
      rw [hx] at h
      by_cases hq : (!g.present x || decide (g.key x = k)) = true
      · have hq' : g.present x = false ∨ g.key x = k := by
          simp only [Bool.or_eq_true, Bool.not_eq_true', decide_eq_true_eq] at hq
          exact hq
        obtain ⟨kids', hd⟩ := mapRow_single_same g k vals kids0 x d hq' hx
        subst hd
        obtain ⟨kids, tl, hl, htw⟩ := ih kids' l h
        refine ⟨kids, tl, hl, ?_⟩
        have htk : (x :: xs).takeWhile (fun x => !g.present x || decide (g.key x = k)) =
            x :: xs.takeWhile (fun x => !g.present x || decide (g.key x = k)) :=
          List.takeWhile_cons_of_pos hq
        rw [htk]
        simp only [qrm.mapRows, hx]
        exact htw
      · have hp : g.present x = true ∧ g.key x ≠ k := by
          simp only [Bool.or_eq_true, Bool.not_eq_true', decide_eq_true_eq, not_or,
            Bool.not_eq_false] at hq
          exact hq
        obtain ⟨second, hd⟩ := mapRow_single_other g k vals kids0 x d hp.1 hp.2 hx
        subst hd
        obtain ⟨b', tl', hl⟩ := mapRows_keeps_first g xs _ _ _ l h
        refine ⟨kids0, b' :: tl', hl, ?_⟩
        have htk : (x :: xs).takeWhile (fun x => !g.present x || decide (g.key x = k)) = [] :=
          List.takeWhile_cons_of_neg hq
        rw [htk]
        rfl

/-- C15, as amended: for a single-record destination and a row stream whose
values convert, with `r` the first row in which the top-level group has a
non-NULL selected column, the scan returns no error and the record's own
fields are those decoded from `r`: no later row overwrites them; and the
record is the one that `r` and the rows after it up to the first row that
carries another top-level key build: no row from there on contributes to its
child collections. -/
theorem single_record_keeps_first_instance (g : qrm.Group) (dest : qrm.Instance)
    (pre post : List qrm.Row) (r : qrm.Row)
    (hpre : ∀ x ∈ pre, g.present x = false) (hr : g.present r = true)
    (hconv : ∀ x ∈ pre ++ r :: post, ∀ f ∈ g.allFields, qrm.fieldOk f x = true) :
    ∃ kids,
      qrm.scanToStruct g dest (pre ++ r :: post) =
        (.record (g.key r) (qrm.storedFields g.fields r) kids, none) ∧
      qrm.scanToStruct g dest
          (pre ++ r :: post.takeWhile (fun x => !g.present x || decide (g.key x = g.key r))) =
        (.record (g.key r) (qrm.storedFields g.fields r) kids, none) := by
  obtain ⟨l, hok⟩ := mapRows_ok g (pre ++ r :: post) hconv []
  have hsplit : ∀ rest : List qrm.Row, qrm.mapRows g [] (pre ++ r :: rest) =
      match qrm.mapRow g [] r with
      | .error e => .error e
      | .ok d => qrm.mapRows g d rest := by
    intro rest
    rw [mapRows_append, mapRows_absent g [] pre hpre]
    rfl
  rw [hsplit] at hok
  cases h1 : qrm.mapRow g [] r with
  | error e => rw [h1] at hok; cases hok
  | ok d =>
    rw [h1] at hok
    obtain ⟨kids0, hd⟩ := mapRow_nil_created g r d hr h1
    subst hd
    obtain ⟨kids, tl, hl, htw⟩ :=
      mapRows_first_from_prefix g (g.key r) (qrm.storedFields g.fields r) post kids0 l hok
    subst hl
    refine ⟨kids, ?_, ?_⟩
    · apply scanToStruct_of_ok g dest _ tl _ (by simp)
      rw [hsplit, h1]
      exact hok
    · apply scanToStruct_of_ok g dest _ [] _ (by simp)
      rw [hsplit, h1]
      exact htw

theorem single_record_keeps_first_instance_witness :
    ∃ kids,
      qrm.scanToStruct qrm.filmWithIDs (.record [] [] []) ([] ++ qrm.tenRows.headD [] ::
          qrm.tenRows.tail) =
        (.record (qrm.filmWithIDs.key (qrm.tenRows.headD []))
          (qrm.storedFields qrm.filmWithIDs.fields (qrm.tenRows.headD [])) kids, none) ∧
      qrm.scanToStruct qrm.filmWithIDs (.record [] [] [])
          ([] ++ qrm.tenRows.headD [] :: qrm.tenRows.tail.takeWhile
            (fun x => !qrm.filmWithIDs.present x ||
              decide (qrm.filmWithIDs.key x = qrm.filmWithIDs.key (qrm.tenRows.headD [])))) =
        (.record (qrm.filmWithIDs.key (qrm.tenRows.headD []))
          (qrm.storedFields qrm.filmWithIDs.fields (qrm.tenRows.headD [])) kids, none) :=
  single_record_keeps_first_instance qrm.filmWithIDs (.record [] [] []) []
    qrm.tenRows.tail (qrm.tenRows.headD []) (by decide) (by decide) (by decide)

/-- C15 as stated fails: when the first row has only NULL in the selected
columns, the record's own fields after mapping are those of the second row,
not those decoded from the first row. -/
theorem first_row_all_null_is_skipped :
    (qrm.scanToStruct qrm.filmWithIDs (.record [] [] [])
      [[none, none, none, none], qrm.joinRow 3 "Adaptation Holes" 4 2]).1.fields =
      qrm.storedFields qrm.filmFields (qrm.joinRow 3 "Adaptation Holes" 4 2) ∧
    (qrm.scanToStruct qrm.filmWithIDs (.record [] [] [])
      [[none, none, none, none], qrm.joinRow 3 "Adaptation Holes" 4 2]).2 = none ∧
    (qrm.scanToStruct qrm.filmWithIDs (.record [] [] [])
      [[none, none, none, none], qrm.joinRow 3 "Adaptation Holes" 4 2]).1.fields ≠
      qrm.storedFields qrm.filmFields [none, none, none, none] := by
  refine ⟨rfl, rfl, ?_⟩
  have h : (qrm.scanToStruct qrm.filmWithIDs (.record [] [] [])
      [[none, none, none, none], qrm.joinRow 3 "Adaptation Holes" 4 2]).1.fields =
      qrm.storedFields qrm.filmFields (qrm.joinRow 3 "Adaptation Holes" 4 2) := rfl
  rw [h]
  decide

end Jet
